import Mathlib

/-!
Verification of the poker engine core of the `privatepool` repository
(`backend/core/poker/`): deck, betting round, side pots, hand evaluator and
hand controller.  Every definition below is a shallow embedding of the
corresponding Python function; chip amounts are modelled as `Int` (Python
integers), cards as rank/suit character pairs (Python uses two-character
strings), Python dictionaries as association lists in insertion order, and
Python exceptions as `Except` results.  Mutation of shared objects is
modelled by explicit state passing in the exact statement order of the
source.
-/

set_option maxRecDepth 10000

/-! ## Cards and deck (`deck.py`) -/

/-- Card rank characters, in the order of `deck.RANKS`. -/
def RANKS : List Char := ['2', '3', '4', '5', '6', '7', '8', '9', 'T', 'J', 'Q', 'K', 'A']

/-- Card suit characters, in the order of `deck.SUITS`. -/
def SUITS : List Char := ['s', 'h', 'd', 'c']

/-- A playing card.  The source represents a card as the two-character string
`rank ++ suit` and reads `card[0]` / `card[-1]`; we model it as the pair of
those characters. -/
structure Card where
  rank : Char
  suit : Char
deriving DecidableEq, Repr

instance : Inhabited Card := ⟨⟨'2', 's'⟩⟩

/-- The 52-card standard deck in construction order: suits outer loop, ranks
inner loop (`CARDS = [f"{rank}{suit}" for suit in SUITS for rank in RANKS]`). -/
def CARDS : List Card := SUITS.flatMap (fun s => RANKS.map (fun r => Card.mk r s))

/-- The two failure modes of `Deck.deal`: a negative count, and a count
exceeding the undealt remainder.  The source raises `ValueError` with a
distinct message for each. -/
inductive DealErr where
  | invalidCount
  | insufficientCards
deriving DecidableEq, Repr

/-- `Deck`: the post-shuffle card sequence plus the mutable cursor `_dealt`. -/
structure Deck where
  cards : List Card
  dealt : Nat
deriving DecidableEq, Repr

/-- `Deck.remaining`: `len(self.cards) - self._dealt`. -/
def Deck.remaining (d : Deck) : Int := (d.cards.length : Int) - (d.dealt : Int)

/-- `Deck.deal`: checks `count < 0` then `count > remaining()`, then returns
the slice `cards[dealt : dealt + count]` and advances the cursor. -/
def Deck.deal (d : Deck) (count : Int) : Except DealErr (List Card × Deck) :=
  if count < 0 then .error .invalidCount
  else if count > d.remaining then .error .insufficientCards
  else .ok ((d.cards.drop d.dealt).take count.toNat, { d with dealt := d.dealt + count.toNat })

/-- `int.from_bytes(seed, 'big')`: big-endian interpretation of the seed
bytes. -/
def intFromBytesBE (seed : List Nat) : Nat := seed.foldl (fun acc b => acc * 256 + b) 0

/-- Swap the entries at positions `i` and `j` of a list
(`cards[i], cards[j] = cards[j], cards[i]`). -/
def listSwap (l : List Card) (i j : Nat) : List Card :=
  let a := l.getD i default
  let b := l.getD j default
  (l.set i b).set j a

/-- `Deck._shuffle`: Fisher-Yates over a copy of `CARDS`, iterating
`i = 51, 50, ..., 1` and swapping index `i` with `j = rng.randint(0, i)`.
The PRNG (`random.Random`, part of the Python standard library, not of this
repository) is modelled as an arbitrary function `randint` of the seed
integer, the number of PRNG calls made so far, and the upper bound `i`;
the repository relies only on the stream being a deterministic function of
the seed, which this modelling makes explicit. -/
def fisherYates (randint : Nat → Nat → Nat → Nat) (seedInt : Nat) : List Card :=
  let idxs := (List.range (CARDS.length - 1)).reverse.map (· + 1)
  (idxs.foldl (fun (st : List Card × Nat) i =>
    let j := randint seedInt st.2 i
    (listSwap st.1 i j, st.2 + 1)) (CARDS, 0)).1

/-- `Deck.__init__`: seed the PRNG from the seed bytes and shuffle; the
cursor starts at 0. -/
def Deck.new (randint : Nat → Nat → Nat → Nat) (seed : List Nat) : Deck :=
  { cards := fisherYates randint (intFromBytesBE seed), dealt := 0 }

/-! ## Betting round (`betting.py`) -/

/-- `ActionType = Literal["fold", "check", "call", "raise"]`. -/
inductive ActionType where
  | fold
  | check
  | call
  | raise
deriving DecidableEq, Repr

/-- `Action`: an action type plus an amount used only for raises (named
`BetAction` here because Mathlib already declares `Action`). -/
structure BetAction where
  action_type : ActionType
  amount : Option Int := none
deriving DecidableEq, Repr

/-- `Action.fold()` constructor. -/
def BetAction.foldAction : BetAction := { action_type := .fold }

/-- `Action.check()` constructor. -/
def BetAction.checkAction : BetAction := { action_type := .check }

/-- `Action.call()` constructor. -/
def BetAction.callAction : BetAction := { action_type := .call }

/-- `Action.raise_to(amount)` constructor. -/
def BetAction.raise_to (amount : Int) : BetAction := { action_type := .raise, amount := some amount }

/-- `PlayerInHand`: a player's state within a hand. -/
structure PlayerInHand where
  wallet : String
  stack : Int
  current_bet : Int := 0
  is_active : Bool := true
  is_all_in : Bool := false
  has_acted : Bool := false
deriving DecidableEq, Repr

instance : Inhabited PlayerInHand := ⟨{ wallet := "", stack := 0 }⟩

/-- `BettingState`: the state of one betting round. -/
structure BettingState where
  pot : Int
  current_bet : Int
  min_raise : Int
  last_raise_amount : Int
  players : List PlayerInHand
  action_on : Nat
  num_active : Int
  num_to_act : Int
deriving DecidableEq, Repr

/-- The causes of `InvalidActionError` in `BettingRound`. -/
inductive InvalidActionReason where
  | actionNotValid
  | raiseNeedsAmount
  | raiseBelowMin
deriving DecidableEq, Repr

/-- `BettingRound.__init__`: count active and can-act players, reset
`has_acted`, and point the action at the first active non-all-in player
(defaulting to index 0). -/
def mkBettingRound (players : List PlayerInHand) (pot big_blind : Int) : BettingState :=
  let num_active : Int := (players.countP (fun p => p.is_active) : Nat)
  let num_to_act : Int := (players.countP (fun p => p.is_active && !p.is_all_in) : Nat)
  let players := players.map (fun p => { p with has_acted := false })
  let action_on := (players.findIdx? (fun p => p.is_active && !p.is_all_in)).getD 0
  { pot := pot, current_bet := 0, min_raise := big_blind, last_raise_amount := big_blind,
    players := players, action_on := action_on, num_active := num_active,
    num_to_act := num_to_act }

/-- `self.state.players[self.state.action_on]` (the acting player).  Index
out of range would raise in Python; theorems about these functions carry the
in-bounds hypothesis. -/
def actingPlayer (s : BettingState) : PlayerInHand := s.players.getD s.action_on default

/-- `BettingRound.get_valid_actions`. -/
def getValidActions (s : BettingState) : List ActionType :=
  let player := actingPlayer s
  if !player.is_active || player.is_all_in then []
  else
    let amount_to_call := s.current_bet - player.current_bet
    if amount_to_call > 0 then [.fold, .call, .raise]
    else [.check, .raise]

/-- `BettingRound._apply_fold`. -/
def applyFold (s : BettingState) : BettingState :=
  let p := actingPlayer s
  { s with players := s.players.set s.action_on { p with is_active := false },
           num_active := s.num_active - 1,
           num_to_act := s.num_to_act - 1 }

/-- `BettingRound._apply_check`. -/
def applyCheck (s : BettingState) : BettingState :=
  { s with num_to_act := s.num_to_act - 1 }

/-- `BettingRound._apply_call`: pay `current_bet - player.current_bet`,
capped at the stack with the player then marked all-in. -/
def applyCall (s : BettingState) : BettingState :=
  let p := actingPlayer s
  let amount_to_call := s.current_bet - p.current_bet
  let goesAllIn := amount_to_call ≥ p.stack
  let pay := if goesAllIn then p.stack else amount_to_call
  let p := { p with is_all_in := if goesAllIn then true else p.is_all_in,
                    stack := p.stack - pay, current_bet := p.current_bet + pay }
  { s with players := s.players.set s.action_on p, pot := s.pot + pay,
           num_to_act := s.num_to_act - 1 }

/-- `BettingRound._reset_action_needed`: clear `has_acted` for every active
non-all-in player and recount `num_to_act`. -/
def resetActionNeeded (s : BettingState) : BettingState :=
  let players := s.players.map (fun p =>
    if p.is_active && !p.is_all_in then { p with has_acted := false } else p)
  { s with players := players,
           num_to_act := ((players.countP (fun p => p.is_active && !p.is_all_in) : Nat) : Int) }

/-- Tail of `BettingRound._apply_raise` after validation: move chips, update
`current_bet`, update `min_raise`/`last_raise_amount` when the raise amount
is positive, reset action for the other players, and mark the raiser as
having acted. -/
def finishRaise (s : BettingState) (p : PlayerInHand) (total raise_to : Int) : BettingState :=
  let raise_amount := raise_to - s.current_bet
  let p := { p with stack := p.stack - total, current_bet := raise_to }
  let s := { s with players := s.players.set s.action_on p, pot := s.pot + total,
                    current_bet := raise_to }
  let s := if raise_amount > 0 then
    { s with last_raise_amount := raise_amount, min_raise := raise_amount } else s
  let s := resetActionNeeded s
  let q := actingPlayer s
  { s with players := s.players.set s.action_on { q with has_acted := true } }

/-- `BettingRound._apply_raise`: a missing amount fails; a commitment of at
least the whole stack is an always-legal all-in capped at
`stack + current_bet`; otherwise the raise-to amount must meet
`current_bet + min_raise`.  Both failure paths occur before any state
mutation, so the failure carries the unchanged state. -/
def applyRaise (s : BettingState) (amt? : Option Int) :
    Except (InvalidActionReason × BettingState) BettingState :=
  match amt? with
  | none => .error (.raiseNeedsAmount, s)
  | some raise_to_amount =>
    let p := actingPlayer s
    let total_to_put_in := raise_to_amount - p.current_bet
    if total_to_put_in ≥ p.stack then
      .ok (finishRaise s { p with is_all_in := true } p.stack (p.current_bet + p.stack))
    else if raise_to_amount < s.current_bet + s.min_raise then
      .error (.raiseBelowMin, s)
    else
      .ok (finishRaise s p total_to_put_in raise_to_amount)

/-- `BettingRound.is_round_complete`. -/
def isRoundComplete (s : BettingState) : Bool :=
  if s.num_active ≤ 1 then true
  else s.players.all (fun p =>
    !(p.is_active && !p.is_all_in) || (p.has_acted && decide (s.current_bet ≤ p.current_bet)))

/-- `BettingRound.advance_action`: move to the next active non-all-in player
cyclically (checking offsets `1 .. n`); stay put when none exists. -/
def advanceAction (s : BettingState) : BettingState :=
  match (List.range s.players.length).findSome? (fun k =>
    let idx := (s.action_on + (k + 1)) % s.players.length
    let p := s.players.getD idx default
    if p.is_active && !p.is_all_in then some idx else none) with
  | some idx => { s with action_on := idx }
  | none => s

/-- `player.has_acted = True` on the acting player (line after the dispatch
in `apply_action`). -/
def markActed (s : BettingState) : BettingState :=
  let p := actingPlayer s
  { s with players := s.players.set s.action_on { p with has_acted := true } }

/-- `BettingRound.apply_action`: validate the action type against
`get_valid_actions`, dispatch, mark the player as having acted, and advance
the action if the round is not complete.  An `InvalidActionError` carries the
betting state as it stands when the exception is raised. -/
def applyAction (s : BettingState) (a : BetAction) :
    Except (InvalidActionReason × BettingState) BettingState :=
  if a.action_type ∉ getValidActions s then .error (.actionNotValid, s)
  else
    let step : Except (InvalidActionReason × BettingState) BettingState :=
      match a.action_type with
      | .fold => .ok (applyFold s)
      | .check => .ok (applyCheck s)
      | .call => .ok (applyCall s)
      | .raise => applyRaise s a.amount
    match step with
    | .error e => .error e
    | .ok s1 =>
      let s2 := markActed s1
      .ok (if !isRoundComplete s2 then advanceAction s2 else s2)

/-! ## Side pots (`side_pots.py`) -/

/-- `SidePot`: an amount and the wallets eligible to win it. -/
structure SidePot where
  amount : Int
  eligible_players : List String
deriving DecidableEq, Repr

/-- Insert into an ascending duplicate-free list, used to realise Python's
`sorted(set(...))`. -/
def insertDedupAsc (x : Int) : List Int → List Int
  | [] => [x]
  | y :: ys => if x < y then x :: y :: ys else if x = y then y :: ys else y :: insertDedupAsc x ys

/-- `sorted(set(l))`: the ascending duplicate-free arrangement of `l`. -/
def sortedDedup (l : List Int) : List Int := l.foldl (fun acc x => insertDedupAsc x acc) []

/-- One tier of `SidePotCalculator.calculate`: accumulate, over the
contributing players, the chips between `previous` and `level` together with
the still-active contributors' wallets. -/
def tierContribution (contributing : List PlayerInHand) (previous level : Int) :
    Int × List String :=
  contributing.foldl (fun (acc : Int × List String) p =>
    if p.current_bet ≥ level then
      (acc.1 + (level - previous), if p.is_active then acc.2 ++ [p.wallet] else acc.2)
    else if p.current_bet > previous then
      (acc.1 + (p.current_bet - previous), if p.is_active then acc.2 ++ [p.wallet] else acc.2)
    else acc) (0, [])

/-- `SidePotCalculator.calculate`. -/
def SidePotCalculator.calculate (players : List PlayerInHand) : List SidePot :=
  let contributing := players.filter (fun p => p.current_bet > 0)
  if contributing.isEmpty then []
  else
    let all_in_levels :=
      sortedDedup ((contributing.filter (fun p => p.is_all_in)).map (fun p => p.current_bet))
    if all_in_levels.isEmpty then
      [{ amount := (contributing.map (fun p => p.current_bet)).sum,
         eligible_players := (contributing.filter (fun p => p.is_active)).map (fun p => p.wallet) }]
    else
      let step := all_in_levels.foldl (fun (acc : List SidePot × Int) level =>
        let tc := tierContribution contributing acc.2 level
        let pots := if decide (tc.1 > 0) && !tc.2.isEmpty then
          acc.1 ++ [{ amount := tc.1, eligible_players := tc.2 : SidePot }] else acc.1
        (pots, level)) ([], 0)
      let max_all_in := step.2
      let rem := contributing.foldl (fun (acc : Int × List String) p =>
        if p.current_bet > max_all_in then
          (acc.1 + (p.current_bet - max_all_in), if p.is_active then acc.2 ++ [p.wallet] else acc.2)
        else acc) (0, [])
      if decide (rem.1 > 0) && !rem.2.isEmpty then
        step.1 ++ [{ amount := rem.1, eligible_players := rem.2 }]
      else step.1

/-- First-occurrence deduplication: the key order of the Python dict
comprehension `{wallet: ... for wallet in pot.eligible_players ...}`. -/
def uniqFirst (l : List String) : List String :=
  l.foldl (fun acc w => if w ∈ acc then acc else acc ++ [w]) []

/-- `min(...)` over a possibly-empty list of values (`none` for an empty
dict, where Python takes the `continue` branch instead). -/
def minList? : List Int → Option Int
  | [] => none
  | x :: xs => some (xs.foldl min x)

/-- The winners of one pot in `SidePotCalculator.distribute`: the eligible
wallets present in the rankings dict whose rank equals the best (minimum)
eligible rank, in dict insertion order. -/
def potWinners (rk : List (String × Int)) (pot : SidePot) : List String :=
  let elig := uniqFirst (pot.eligible_players.filter (fun w => (List.lookup w rk).isSome))
  match minList? (elig.filterMap (fun w => List.lookup w rk)) with
  | none => []
  | some best => elig.filter (fun w => List.lookup w rk == some best)

/-- The per-winner amounts of one pot: winner `i` receives
`share + (1 if i < remainder else 0)`. -/
def payoutsAux (share rem : Int) : Nat → List String → List (String × Int)
  | _, [] => []
  | i, w :: ws => (w, share + if (i : Int) < rem then 1 else 0) :: payoutsAux share rem (i + 1) ws

/-- The payout list of one pot (`share = amount // n`, `remainder = amount % n`
with Python floor semantics, which agree with `Int` `/` and `%` for the
positive divisor `n`). -/
def potPayouts (rk : List (String × Int)) (pot : SidePot) : List (String × Int) :=
  let ws := potWinners rk pot
  if ws.isEmpty then []
  else payoutsAux (pot.amount / (ws.length : Int)) (pot.amount % (ws.length : Int)) 0 ws

/-- `winnings[winner] += amount` with dict semantics: add to the existing
entry, else append a new one. -/
def addWin (acc : List (String × Int)) (w : String) (a : Int) : List (String × Int) :=
  match acc with
  | [] => [(w, a)]
  | (x, b) :: rest => if x = w then (x, b + a) :: rest else (x, b) :: addWin rest w a

/-- `SidePotCalculator.distribute`: fold the per-pot payouts into the
winnings dict; a pot with no ranked eligible wallet is skipped
(`continue`). -/
def SidePotCalculator.distribute (pots : List SidePot) (rk : List (String × Int)) :
    List (String × Int) :=
  pots.foldl (fun acc pot => (potPayouts rk pot).foldl (fun a2 p => addWin a2 p.1 p.2) acc) []

/-- Sum of the winnings dict's values. -/
def winTotal (ws : List (String × Int)) : Int := (ws.map (fun p => p.2)).sum

/-- Sum of the pots' amounts. -/
def potsTotal (pots : List SidePot) : Int := (pots.map (fun p => p.amount)).sum

/-! ## Hand evaluator (`hand_evaluator.py`) -/

/-- `HandRank`: the ten hand categories. -/
inductive HandRank where
  | highCard
  | pair
  | twoPair
  | threeOfAKind
  | straight
  | flush
  | fullHouse
  | fourOfAKind
  | straightFlush
  | royalFlush
deriving DecidableEq, Repr

/-- The `IntEnum` value of each `HandRank` (`HIGH_CARD = 1` .. `ROYAL_FLUSH = 10`). -/
def HandRank.val : HandRank → Nat
  | .highCard => 1
  | .pair => 2
  | .twoPair => 3
  | .threeOfAKind => 4
  | .straight => 5
  | .flush => 6
  | .fullHouse => 7
  | .fourOfAKind => 8
  | .straightFlush => 9
  | .royalFlush => 10

/-- `EvaluatedHand`: rank, tie-break tuple, the five cards used and the
human-readable description. -/
structure EvaluatedHand where
  rank : HandRank
  rank_values : List Int
  cards_used : List Card
  description : String
deriving DecidableEq, Repr

/-- Python tuple comparison `<` on the tie-break tuples: lexicographic, with
a strict prefix smaller than the longer tuple. -/
def tupleLt : List Int → List Int → Bool
  | [], [] => false
  | [], _ :: _ => true
  | _ :: _, [] => false
  | x :: xs, y :: ys => decide (x < y) || (x == y && tupleLt xs ys)

/-- `EvaluatedHand.__lt__`: compare ranks first, then the tie-break tuples. -/
def eLt (a b : EvaluatedHand) : Bool :=
  if a.rank ≠ b.rank then decide (a.rank.val < b.rank.val)
  else tupleLt a.rank_values b.rank_values

/-- `EvaluatedHand.__eq__`: same rank and same tie-break tuple. -/
def eEq (a b : EvaluatedHand) : Bool := a.rank == b.rank && a.rank_values == b.rank_values

/-- `EvaluatedHand.__le__`. -/
def eLe (a b : EvaluatedHand) : Bool := eLt a b || eEq a b

/-- `EvaluatedHand.__gt__` (defined in the source as `not self <= other`). -/
def eGt (a b : EvaluatedHand) : Bool := !(eLe a b)

/-- `EvaluatedHand.__ge__` (defined in the source as `not self < other`). -/
def eGe (a b : EvaluatedHand) : Bool := !(eLt a b)

/-- `HandEvaluator.RANK_VALUES` (2 maps to 0, ..., Ace maps to 12); other
characters never occur (a Python `KeyError`). -/
def rankValue (c : Char) : Int :=
  if c = '2' then 0 else if c = '3' then 1 else if c = '4' then 2
  else if c = '5' then 3 else if c = '6' then 4 else if c = '7' then 5
  else if c = '8' then 6 else if c = '9' then 7 else if c = 'T' then 8
  else if c = 'J' then 9 else if c = 'Q' then 10 else if c = 'K' then 11
  else if c = 'A' then 12 else 0

/-- `HandEvaluator.RANK_NAMES`. -/
def rankName (v : Int) : String :=
  if v = 0 then "2" else if v = 1 then "3" else if v = 2 then "4"
  else if v = 3 then "5" else if v = 4 then "6" else if v = 5 then "7"
  else if v = 6 then "8" else if v = 7 then "9" else if v = 8 then "Ten"
  else if v = 9 then "Jack" else if v = 10 then "Queen" else if v = 11 then "King"
  else if v = 12 then "Ace" else ""

/-- `HandEvaluator.RANK_NAMES_PLURAL`. -/
def rankNamePlural (v : Int) : String :=
  if v = 0 then "Twos" else if v = 1 then "Threes" else if v = 2 then "Fours"
  else if v = 3 then "Fives" else if v = 4 then "Sixes" else if v = 5 then "Sevens"
  else if v = 6 then "Eights" else if v = 7 then "Nines" else if v = 8 then "Tens"
  else if v = 9 then "Jacks" else if v = 10 then "Queens" else if v = 11 then "Kings"
  else if v = 12 then "Aces" else ""

/-- Stable descending insertion by an integer key: the placement used by
Python's stable `sorted(..., reverse=True)`. -/
def insertDescBy {α : Type} (key : α → Int) (x : α) : List α → List α
  | [] => [x]
  | y :: ys => if key y < key x then x :: y :: ys else y :: insertDescBy key x ys

/-- Stable descending sort by an integer key (`sorted(..., key=key, reverse=True)`). -/
def sortDescBy {α : Type} (key : α → Int) (l : List α) : List α :=
  l.foldl (fun acc x => insertDescBy key x acc) []

/-- Stable ascending insertion by an integer key. -/
def insertAscBy {α : Type} (key : α → Int) (x : α) : List α → List α
  | [] => [x]
  | y :: ys => if key x < key y then x :: y :: ys else y :: insertAscBy key x ys

/-- Stable ascending sort by an integer key (`sorted(..., key=key)`). -/
def sortAscBy {α : Type} (key : α → Int) (l : List α) : List α :=
  l.foldl (fun acc x => insertAscBy key x acc) []

/-- `max` over a list of integers; Python's `max` on the (always nonempty at
its call sites) list. -/
def maxListD : List Int → Int
  | [] => 0
  | x :: xs => xs.foldl max x

/-- `HandEvaluator._is_flush`: five cards of a single suit. -/
def isFlush (cards : List Card) : Bool × List Card :=
  if cards.length ≠ 5 then (false, [])
  else if ((cards.map (fun c => c.suit)).dedup).length = 1 then (true, cards)
  else (false, [])

/-- The `wheel_order` dict of `_is_straight` (`.get(value, 0)`). -/
def wheelOrder (v : Int) : Int :=
  if v = 12 then 0 else if v = 0 then 1 else if v = 1 then 2
  else if v = 2 then 3 else if v = 3 then 4 else 0

/-- `HandEvaluator._is_straight`: five consecutive values, or the wheel
`A-2-3-4-5` reported with high-card value 3. -/
def isStraight (cards : List Card) : Bool × List Card × Int :=
  if cards.length ≠ 5 then (false, [], 0)
  else
    let values := sortAscBy id (cards.map (fun c => rankValue c.rank))
    let v0 := values.headD 0
    if values = [v0, v0 + 1, v0 + 2, v0 + 3, v0 + 4] then
      (true, sortDescBy (fun c => rankValue c.rank) cards, values.getLastD 0)
    else if values = [0, 1, 2, 3, 12] then
      (true, sortDescBy (fun c => wheelOrder (rankValue c.rank)) cards, 3)
    else (false, [], 0)

/-- One step of `_get_rank_counts`: bump the count of `v`, preserving first
insertion order of the dict keys. -/
def incrCount : List (Int × Nat) → Int → List (Int × Nat)
  | [], v => [(v, 1)]
  | (k, n) :: rest, v => if k = v then (k, n + 1) :: rest else (k, n) :: incrCount rest v

/-- `HandEvaluator._get_rank_counts` as an insertion-ordered association list. -/
def rankCounts (cards : List Card) : List (Int × Nat) :=
  cards.foldl (fun acc c => incrCount acc (rankValue c.rank)) []

/-- `HandEvaluator._find_n_of_a_kind`: the highest rank appearing exactly `n`
times, if any. -/
def findNOfAKind (counts : List (Int × Nat)) (n : Nat) : Option Int :=
  match (counts.filter (fun kc => kc.2 == n)).map (fun kc => kc.1) with
  | [] => none
  | x :: xs => some (xs.foldl max x)

/-- `HandEvaluator._find_all_pairs`: the ranks appearing exactly twice, in
dict order. -/
def findAllPairs (counts : List (Int × Nat)) : List Int :=
  (counts.filter (fun kc => kc.2 == 2)).map (fun kc => kc.1)

/-- `HandEvaluator._get_kickers`: highest `count` values outside the excluded
ranks. -/
def getKickers (cards : List Card) (exclude : List Int) (count : Nat) : List Int :=
  (sortDescBy id ((cards.map (fun c => rankValue c.rank)).filter
    (fun v => !exclude.contains v))).take count

/-- `HandEvaluator._build_hand_cards`: for each `(rank, count)` requirement,
collect up to `count` unused cards of that rank. -/
def buildHandCards (cards : List Card) (reqs : List (Int × Nat)) : List Card :=
  (reqs.foldl (fun (acc : List Card × List Card) r =>
    let matching := cards.filter (fun c => rankValue c.rank == r.1 && !acc.2.contains c)
    let chosen := matching.take r.2
    (acc.1 ++ chosen, acc.2 ++ chosen)) ([], [])).1

/-- `HandEvaluator._evaluate_five_cards`: the descending-priority ladder of
hand categories over exactly five cards. -/
def evaluateFiveCards (cards : List Card) : EvaluatedHand :=
  let fl := isFlush cards
  let st := isStraight cards
  let straight_cards := st.2.1
  let straight_high := st.2.2
  let rank_counts := rankCounts cards
  if fl.1 && st.1 then
    if straight_high = 12 then
      { rank := .royalFlush, rank_values := [12, 11, 10, 9, 8], cards_used := straight_cards,
        description := "Royal Flush" }
    else
      { rank := .straightFlush,
        rank_values := if straight_high ≠ 3 then
            sortDescBy id (straight_cards.map (fun c => rankValue c.rank))
          else [3, 2, 1, 0, -1],
        cards_used := straight_cards,
        description := "Straight Flush, " ++ rankName straight_high ++ " high" }
  else
    match findNOfAKind rank_counts 4 with
    | some quads =>
      let kicker := getKickers cards [quads] 1
      { rank := .fourOfAKind, rank_values := [quads, kicker.headD 0],
        cards_used := buildHandCards cards ([(quads, 4)] ++ kicker.map (fun k => (k, 1))),
        description := "Four of a Kind, " ++ rankNamePlural quads }
    | none =>
      let trips := findNOfAKind rank_counts 3
      let pairs := findAllPairs rank_counts
      match trips, pairs.isEmpty with
      | some t, false =>
        let pair_rank := maxListD pairs
        { rank := .fullHouse, rank_values := [t, pair_rank],
          cards_used := buildHandCards cards [(t, 3), (pair_rank, 2)],
          description := "Full House, " ++ rankNamePlural t ++ " full of " ++
            rankNamePlural pair_rank }
      | _, _ =>
        if fl.1 then
          let sorted_values := sortDescBy id (cards.map (fun c => rankValue c.rank))
          { rank := .flush, rank_values := sorted_values, cards_used := cards,
            description := "Flush, " ++ rankName (sorted_values.headD 0) ++ " high" }
        else if st.1 then
          { rank := .straight,
            rank_values := if straight_high = 3 then [3, 2, 1, 0, -1]
              else [straight_high, straight_high - 1, straight_high - 2,
                    straight_high - 3, straight_high - 4],
            cards_used := straight_cards,
            description := "Straight, " ++ rankName straight_high ++ " high" }
        else
          match trips with
          | some t =>
            let kickers := getKickers cards [t] 2
            { rank := .threeOfAKind, rank_values := t :: kickers,
              cards_used := buildHandCards cards ([(t, 3)] ++ kickers.map (fun k => (k, 1))),
              description := "Three of a Kind, " ++ rankNamePlural t }
          | none =>
            if pairs.length ≥ 2 then
              let top_pairs := (sortDescBy id pairs).take 2
              let tp0 := top_pairs.headD 0
              let tp1 := (top_pairs.drop 1).headD 0
              let kicker := getKickers cards top_pairs 1
              { rank := .twoPair, rank_values := [tp0, tp1, kicker.headD 0],
                cards_used := buildHandCards cards [(tp0, 2), (tp1, 2), (kicker.headD 0, 1)],
                description := "Two Pair, " ++ rankNamePlural tp0 ++ " and " ++
                  rankNamePlural tp1 }
            else if pairs.length = 1 then
              let pair_rank := pairs.headD 0
              let kickers := getKickers cards [pair_rank] 3
              { rank := .pair, rank_values := pair_rank :: kickers,
                cards_used := buildHandCards cards ([(pair_rank, 2)] ++
                  kickers.map (fun k => (k, 1))),
                description := "Pair of " ++ rankNamePlural pair_rank }
            else
              let sorted_values := sortDescBy id (cards.map (fun c => rankValue c.rank))
              { rank := .highCard, rank_values := sorted_values,
                cards_used := sortDescBy (fun c => rankValue c.rank) cards,
                description := rankName (sorted_values.headD 0) ++ " high" }

/-- `itertools.combinations(l, n)` in Python's emission order. -/
def combos : Nat → List Card → List (List Card)
  | 0, _ => [[]]
  | _ + 1, [] => []
  | n + 1, x :: xs => (combos n xs).map (fun t => x :: t) ++ combos (n + 1) xs

/-- `HandEvaluator.evaluate`: the maximum of `_evaluate_five_cards` over all
5-card subsets, keeping the earlier hand on ties; `none` when fewer than 5
cards are supplied (a Python `ValueError`). -/
def HandEvaluator.evaluate (hole_cards community : List Card) : Option EvaluatedHand :=
  let all_cards := hole_cards ++ community
  if all_cards.length < 5 then none
  else
    (combos 5 all_cards).foldl (fun best five =>
      let hand := evaluateFiveCards five
      match best with
      | none => some hand
      | some b => if eGt hand b then some hand else some b) none

/-- `HandEvaluator.compare`: -1, 0 or 1. -/
def HandEvaluator.compare (hand1 hand2 : EvaluatedHand) : Int :=
  if eLt hand1 hand2 then -1 else if eGt hand1 hand2 then 1 else 0

/-- The combined comparison key: Python compares `rank` first and the
tie-break tuple on equal ranks, which coincides with tuple comparison on
`rank.val :: rank_values` because `HandRank.val` is injective. -/
def eKey (a : EvaluatedHand) : List Int := (a.rank.val : Int) :: a.rank_values

/-! ## Hand controller (`hand_controller.py`) -/

/-- `HandPhase`. -/
inductive HandPhase where
  | waiting
  | posting_blinds
  | dealing
  | preflop
  | flop
  | turn
  | river
  | showdown
  | complete
deriving DecidableEq, Repr

/-- `HandAction`: one entry of the hand's action log (`timestamp_ms` is never
set by the controller and stays at its default 0). -/
structure HandAction where
  player_wallet : String
  phase : HandPhase
  action_type : String
  amount : Int := 0
  timestamp_ms : Int := 0
deriving DecidableEq, Repr

/-- `HandResult`: the outcome of a completed hand. -/
structure HandResult where
  winners : List (String × Int)
  pot_total : Int
  final_hands : List (String × EvaluatedHand)
  side_pots : List SidePot
  eliminations : List String
  actions : List HandAction
deriving DecidableEq, Repr

/-- One per-player entry of `HandState.players` (a plain dict in the source). -/
structure PlayerView where
  wallet : String
  stack : Int
  current_bet : Int
  is_active : Bool
  is_all_in : Bool
  seat_position : Nat
deriving DecidableEq, Repr

/-- `HandState`: the externally observable state handed to the decision
callback. -/
structure HandState where
  hand_id : String
  phase : HandPhase
  pot : Int
  community_cards : List Card
  current_bet : Int
  action_on : Option String
  players : List PlayerView
  valid_actions : List ActionType
  min_raise_to : Int
deriving DecidableEq, Repr

/-- `PlayerConfig`: a player entering a hand. -/
structure PlayerConfig where
  wallet : String
  stack : Int
  seat_position : Nat
deriving DecidableEq, Repr

/-- The mutable state of a `HandController` instance.  The deck is carried as
the already-constructed `Deck` (in the source, `Deck(deck_seed)` — see
`Deck.new`). -/
structure HandController where
  hand_id : String
  button_position : Nat
  small_blind : Int
  big_blind : Int
  ante : Int
  deck : Deck
  players : List PlayerInHand
  seat_positions : List (String × Nat)
  hole_cards : List (String × List Card)
  community_cards : List Card
  actions : List HandAction
  phase : HandPhase
  pot : Int
  current_bet : Int
deriving DecidableEq, Repr

/-- `HandController.__init__`: requires at least two players (else a Python
`ValueError`), sorts them by seat position, and builds the initial state. -/
def HandController.init (hand_id : String) (players : List PlayerConfig)
    (button_position : Nat) (small_blind big_blind ante : Int) (deck : Deck) :
    Option HandController :=
  if players.length < 2 then none
  else
    let sorted_players := sortAscBy (fun p => (p.seat_position : Int)) players
    some { hand_id := hand_id, button_position := button_position,
           small_blind := small_blind, big_blind := big_blind, ante := ante, deck := deck,
           players := sorted_players.map (fun p =>
             { wallet := p.wallet, stack := p.stack, current_bet := 0,
               is_active := true, is_all_in := false, has_acted := false }),
           seat_positions := sorted_players.map (fun p => (p.wallet, p.seat_position)),
           hole_cards := [], community_cards := [], actions := [],
           phase := .waiting, pot := 0, current_bet := 0 }

/-- `HandController._get_sb_player_idx`. -/
def sbPlayerIdx (hc : HandController) : Nat :=
  let n := hc.players.length
  if n = 2 then hc.button_position else (hc.button_position + 1) % n

/-- `HandController._get_bb_player_idx`. -/
def bbPlayerIdx (hc : HandController) : Nat :=
  let n := hc.players.length
  if n = 2 then (hc.button_position + 1) % n else (hc.button_position + 2) % n

/-- `HandController._get_preflop_action_idx`. -/
def preflopActionIdx (hc : HandController) : Nat :=
  let n := hc.players.length
  if n = 2 then hc.button_position else (hc.button_position + 3) % n

/-- `HandController._get_postflop_action_idx`: first active non-all-in seat
left of the button, else 0. -/
def postflopActionIdx (hc : HandController) : Nat :=
  let n := hc.players.length
  ((List.range n).findSome? (fun k =>
    let idx := (hc.button_position + (k + 1)) % n
    let p := hc.players.getD idx default
    if p.is_active && !p.is_all_in then some idx else none)).getD 0

/-- `HandController._post_blinds`: the SB seat posts `min(small_blind, stack)`
and the BB seat posts `min(big_blind + ante, stack)`; a seat whose stack
reaches 0 is marked all-in; the blind posts (and, for a positive ante, a
`post_ante` entry) are logged and `current_bet` is set to the larger posted
bet.  The SB and BB players are read before either posting, as in the source
(they are distinct objects for the configurations admitted by
`HandController.init`). -/
def postBlinds (hc0 : HandController) : HandController :=
  let hc := { hc0 with phase := HandPhase.posting_blinds }
  let sb_idx := sbPlayerIdx hc
  let bb_idx := bbPlayerIdx hc
  let sb_player := hc.players.getD sb_idx default
  let bb_player := hc.players.getD bb_idx default
  let sb_amount := min hc.small_blind sb_player.stack
  let sb_player := { sb_player with stack := sb_player.stack - sb_amount,
                                    current_bet := sb_amount }
  let sb_player := if sb_player.stack = 0 then { sb_player with is_all_in := true }
    else sb_player
  let hc := { hc with players := hc.players.set sb_idx sb_player, pot := hc.pot + sb_amount }
  let hc := { hc with actions := hc.actions ++
    [({ player_wallet := sb_player.wallet, phase := hc.phase, action_type := "post_sb",
        amount := sb_amount } : HandAction)] }
  let bb_total := hc.big_blind + hc.ante
  let bb_amount := min bb_total bb_player.stack
  let bb_player := { bb_player with stack := bb_player.stack - bb_amount,
                                    current_bet := bb_amount }
  let bb_player := if bb_player.stack = 0 then { bb_player with is_all_in := true }
    else bb_player
  let hc := { hc with players := hc.players.set bb_idx bb_player, pot := hc.pot + bb_amount }
  let hc := { hc with actions := hc.actions ++
    [({ player_wallet := bb_player.wallet, phase := hc.phase, action_type := "post_bb",
        amount := bb_amount } : HandAction)] }
  let hc := if hc.ante > 0 then
      { hc with actions := hc.actions ++
        [({ player_wallet := bb_player.wallet, phase := hc.phase, action_type := "post_ante",
            amount := min hc.ante bb_amount } : HandAction)] }
    else hc
  { hc with current_bet := max sb_player.current_bet bb_player.current_bet }

/-- The failures that can escape `HandController.run`: deck exhaustion
(`ValueError` from `Deck.deal`), a propagated `InvalidActionError`, an
evaluation of fewer than five cards, and exhaustion of the loop fuel (the
source's unbounded `while`). -/
inductive RunErr where
  | deckFail (e : DealErr)
  | invalidAction
  | evalFail
  | outOfFuel
deriving DecidableEq, Repr

/-- `HandController._deal_hole_cards`: two cards to every player in seat
order. -/
def dealHoleCards (hc0 : HandController) : Except RunErr HandController :=
  let hc := { hc0 with phase := HandPhase.dealing }
  hc.players.foldlM (fun acc p =>
    match acc.deck.deal 2 with
    | .error e => .error (.deckFail e)
    | .ok (cards, deck) =>
      .ok { acc with deck := deck, hole_cards := acc.hole_cards ++ [(p.wallet, cards)] }) hc

/-- `HandController._deal_community_cards`: burn one card, then deal `count`
onto the board. -/
def dealCommunityCards (hc : HandController) (count : Int) : Except RunErr HandController :=
  match hc.deck.deal 1 with
  | .error e => .error (.deckFail e)
  | .ok (_, deck) =>
    match deck.deal count with
    | .error e => .error (.deckFail e)
    | .ok (new_cards, deck) =>
      .ok { hc with deck := deck, community_cards := hc.community_cards ++ new_cards }

/-- `HandController._count_active_players`. -/
def countActivePlayers (hc : HandController) : Nat :=
  hc.players.countP (fun p => p.is_active)

/-- `HandController._count_players_can_act`. -/
def countPlayersCanAct (hc : HandController) : Nat :=
  hc.players.countP (fun p => p.is_active && !p.is_all_in)

/-- `HandController._is_hand_over`. -/
def isHandOver (hc : HandController) : Bool := countActivePlayers hc ≤ 1

/-- `HandController._all_in_showdown`. -/
def allInShowdown (hc : HandController) : Bool :=
  let active := hc.players.filter (fun p => p.is_active)
  if active.length ≤ 1 then false
  else active.countP (fun p => !p.is_all_in) ≤ 1

/-- `HandController._reset_bets_for_new_round`. -/
def resetBetsForNewRound (hc : HandController) : HandController :=
  { hc with players := hc.players.map (fun p => { p with current_bet := 0, has_acted := false }),
            current_bet := 0 }

/-- `HandController._reorder_players_for_betting`. -/
def reorderPlayersForBetting (hc : HandController) (first_to_act : Nat) : List PlayerInHand :=
  let n := hc.players.length
  (List.range n).map (fun i => hc.players.getD ((first_to_act + i) % n) default)

/-- The post-round write-back of `_run_betting_round`: in Python the
reordered list holds the same objects as `self.players`, so every mutation is
visible through both; in this embedding the main list is refreshed from the
reordered one by wallet (wallets are unique per hand). -/
def syncPlayers (main ordered : List PlayerInHand) : List PlayerInHand :=
  main.map (fun mp =>
    match ordered.find? (fun op => op.wallet == mp.wallet) with
    | some op => op
    | none => mp)

/-- `HandController.get_state`: observable state (the betting round argument
is `self.betting_round`, present only while `_run_betting_round` runs). -/
def HandController.get_state (hc : HandController) (br : Option BettingState) : HandState :=
  let triple : Option String × List ActionType × Int :=
    match br with
    | some b =>
      if !isRoundComplete b then
        (some (actingPlayer b).wallet, getValidActions b, b.current_bet + b.min_raise)
      else (none, [], hc.current_bet + hc.big_blind)
    | none => (none, [], hc.current_bet + hc.big_blind)
  { hand_id := hc.hand_id, phase := hc.phase, pot := hc.pot,
    community_cards := hc.community_cards, current_bet := hc.current_bet,
    action_on := triple.1,
    players := hc.players.map (fun p =>
      { wallet := p.wallet, stack := p.stack, current_bet := p.current_bet,
        is_active := p.is_active, is_all_in := p.is_all_in,
        seat_position := (List.lookup p.wallet hc.seat_positions).getD 0 }),
    valid_actions := triple.2.1, min_raise_to := triple.2.2 }

/-- The string stored in the action log for each `ActionType`. -/
def actionTypeName : ActionType → String
  | .fold => "fold"
  | .check => "check"
  | .call => "call"
  | .raise => "raise"

/-- `self.actions[-1].action_type = "fold"` (rewrite of the last log entry
after a substituted fold). -/
def setLastActionFold : List HandAction → List HandAction
  | [] => []
  | [a] => [{ a with action_type := "fold" }]
  | a :: rest => a :: setLastActionFold rest

/-- The `while not ... is_round_complete()` loop of
`HandController._run_betting_round`, with explicit fuel standing for the
source's unbounded iteration (every theorem below supplies ample fuel).  An
action rejected with `InvalidActionError` is retried as a fold on the state
carried by the exception; if the fold is also rejected the error propagates.
The hand-over check reads the same player objects the betting round mutates,
hence counts over the round's list. -/
def bettingLoop (cb : HandState → BetAction) :
    Nat → HandController → BettingState → Except RunErr (HandController × BettingState)
  | 0, _, _ => .error .outOfFuel
  | fuel + 1, hc, br =>
    if isRoundComplete br then .ok (hc, br)
    else if br.players.countP (fun p => p.is_active) ≤ 1 then .ok (hc, br)
    else
      let hcView := { hc with players := syncPlayers hc.players br.players }
      let state := HandController.get_state hcView (some br)
      match state.action_on with
      | none => .ok (hc, br)
      | some _ =>
        let action := cb state
        let acting := actingPlayer br
        let hc := { hc with actions := hc.actions ++
          [({ player_wallet := acting.wallet, phase := hc.phase,
              action_type := actionTypeName action.action_type,
              amount := action.amount.getD 0 } : HandAction)] }
        match applyAction br action with
        | .ok br2 =>
          let hc := { hc with pot := br2.pot, current_bet := br2.current_bet }
          bettingLoop cb fuel hc br2
        | .error e =>
          match applyAction e.2 BetAction.foldAction with
          | .ok br2 =>
            let hc := { hc with actions := setLastActionFold hc.actions }
            let hc := { hc with pot := br2.pot, current_bet := br2.current_bet }
            bettingLoop cb fuel hc br2
          | .error _ => .error .invalidAction

/-- `HandController._run_betting_round`: reorder the players, open a betting
round, seed the preflop bet level from the posted blinds, run the loop, and
write the round's player states back. -/
def runBettingRound (hc : HandController) (first_to_act : Nat) (cb : HandState → BetAction)
    (fuel : Nat) : Except RunErr HandController :=
  let ordered := reorderPlayersForBetting hc first_to_act
  let br := mkBettingRound ordered hc.pot hc.big_blind
  let pr : BettingState × HandController :=
    if hc.phase = HandPhase.preflop then
      let max_bet := maxListD (ordered.map (fun p => p.current_bet))
      ({ br with current_bet := max_bet }, { hc with current_bet := max_bet })
    else (br, hc)
  match bettingLoop cb fuel pr.2 pr.1 with
  | .error e => .error e
  | .ok (hc, br) => .ok { hc with players := syncPlayers hc.players br.players }

/-- The hand-evaluation loop of `_determine_winners` over the active
players. -/
def evalActiveHands (hc : HandController) (active : List PlayerInHand) :
    Except RunErr (List (String × EvaluatedHand)) :=
  active.foldlM (fun acc p =>
    let hole := (List.lookup p.wallet hc.hole_cards).getD []
    match HandEvaluator.evaluate hole hc.community_cards with
    | none => .error .evalFail
    | some h => .ok (acc ++ [(p.wallet, h)])) []

/-- Stable descending insertion of `(wallet, hand)` pairs by hand strength
(`hands_list.sort(key=lambda x: x[1], reverse=True)`). -/
def insertHandDesc (x : String × EvaluatedHand) :
    List (String × EvaluatedHand) → List (String × EvaluatedHand)
  | [] => [x]
  | y :: ys => if eLt y.2 x.2 then x :: y :: ys else y :: insertHandDesc x ys

/-- Stable descending sort of `(wallet, hand)` pairs by hand strength. -/
def sortHandsDesc (l : List (String × EvaluatedHand)) : List (String × EvaluatedHand) :=
  l.foldl (fun acc x => insertHandDesc x acc) []

/-- Rank assignment of `_determine_winners`: walk the descending hand list,
incrementing the rank whenever a hand differs from its predecessor. -/
def assignRanks (sorted_hands : List (String × EvaluatedHand)) : List (String × Int) :=
  (sorted_hands.foldl
    (fun (acc : List (String × Int) × Int × Option EvaluatedHand) wh =>
      let r := match acc.2.2 with
        | some prev => if !eEq wh.2 prev then acc.2.1 + 1 else acc.2.1
        | none => acc.2.1
      (acc.1 ++ [(wh.1, r)], r, some wh.2)) ([], 0, none)).1

/-- `HandController._determine_winners`: single remaining player takes the
whole pot; otherwise evaluate and rank the active hands, compute side pots
from the players' (current-street) bets, fall back to one main pot over all
active players when no side pots were produced, and distribute.  Returns
`(winnings, final_hands, side_pots)`. -/
def HandController.determine_winners (hc : HandController) :
    Except RunErr (List (String × Int) × List (String × EvaluatedHand) × List SidePot) :=
  let active_players := hc.players.filter (fun p => p.is_active)
  if active_players.length = 1 then
    .ok ([((active_players.headD default).wallet, hc.pot)], [], [])
  else
    match evalActiveHands hc active_players with
    | .error e => .error e
    | .ok evaluated_hands =>
      let hand_rankings := assignRanks (sortHandsDesc evaluated_hands)
      let side_pots := SidePotCalculator.calculate hc.players
      let side_pots :=
        if side_pots.isEmpty && decide (hc.pot > 0) && decide (active_players.length > 1) then
          [{ amount := hc.pot, eligible_players := active_players.map (fun p => p.wallet) }]
        else side_pots
      let winnings := SidePotCalculator.distribute side_pots hand_rankings
      .ok (winnings, evaluated_hands, side_pots)

/-- The winnings credit of `run`: `self.players[idx].stack += amount` for
each winner (wallets are unique per hand). -/
def creditWinnings (players : List PlayerInHand) (winners : List (String × Int)) :
    List PlayerInHand :=
  winners.foldl (fun ps wa =>
    ps.map (fun p => if p.wallet == wa.1 then { p with stack := p.stack + wa.2 } else p)) players

/-- `HandController.run`: blinds, hole cards, the four streets with all-in
showdown detection, showdown, credit, elimination scan.  Returns the
`HandResult` together with the final controller state. -/
def HandController.run (hc0 : HandController) (cb : HandState → BetAction) (fuel : Nat) :
    Except RunErr (HandResult × HandController) := do
  let hc := postBlinds hc0
  let hc ← dealHoleCards hc
  let hc := { hc with phase := HandPhase.preflop }
  let hc ← if !isHandOver hc && decide (1 < countPlayersCanAct hc) then
      runBettingRound hc (preflopActionIdx hc) cb fuel
    else pure hc
  let run_to_showdown := allInShowdown hc && decide (1 < countActivePlayers hc)
  let st ←
    if !isHandOver hc then do
      let hc := resetBetsForNewRound hc
      let hc ← dealCommunityCards hc 3
      let hc := { hc with phase := HandPhase.flop }
      let hc ← if !run_to_showdown && decide (1 < countPlayersCanAct hc) then
          runBettingRound hc (postflopActionIdx hc) cb fuel
        else pure hc
      let run_to_showdown := if !run_to_showdown then
          allInShowdown hc && decide (1 < countActivePlayers hc)
        else run_to_showdown
      pure (hc, run_to_showdown)
    else pure (hc, run_to_showdown)
  let hc := st.1
  let run_to_showdown := st.2
  let st ←
    if !isHandOver hc then do
      let hc := resetBetsForNewRound hc
      let hc ← dealCommunityCards hc 1
      let hc := { hc with phase := HandPhase.turn }
      let hc ← if !run_to_showdown && decide (1 < countPlayersCanAct hc) then
          runBettingRound hc (postflopActionIdx hc) cb fuel
        else pure hc
      let run_to_showdown := if !run_to_showdown then
          allInShowdown hc && decide (1 < countActivePlayers hc)
        else run_to_showdown
      pure (hc, run_to_showdown)
    else pure (hc, run_to_showdown)
  let hc := st.1
  let run_to_showdown := st.2
  let hc ←
    if !isHandOver hc then do
      let hc := resetBetsForNewRound hc
      let hc ← dealCommunityCards hc 1
      let hc := { hc with phase := HandPhase.river }
      let hc ← if !run_to_showdown && decide (1 < countPlayersCanAct hc) then
          runBettingRound hc (postflopActionIdx hc) cb fuel
        else pure hc
      pure hc
    else pure hc
  let hc := { hc with phase := HandPhase.showdown }
  let res ← HandController.determine_winners hc
  let winners := res.1
  let hc := { hc with players := creditWinnings hc.players winners }
  let eliminations := (hc.players.filter (fun p => p.stack = 0)).map (fun p => p.wallet)
  let hc := { hc with phase := HandPhase.complete }
  pure ({ winners := winners, pot_total := hc.pot, final_hands := res.2.1,
          side_pots := res.2.2, eliminations := eliminations, actions := hc.actions }, hc)

/-- Sum of the players' stacks. -/
def stackSum (players : List PlayerInHand) : Int := (players.map (fun p => p.stack)).sum

/-- Scripted decision callback for the chip-conservation scenario: call when
facing a bet, open for 10 on the river, otherwise check. -/
def riverBetCallback (s : HandState) : BetAction :=
  if s.valid_actions.contains ActionType.call then BetAction.callAction
  else if s.phase = HandPhase.river && s.valid_actions.contains ActionType.raise then
    BetAction.raise_to 10
  else BetAction.checkAction

/-- Scripted decision callback that proposes an illegal below-minimum raise
on the flop (where the acting player owes nothing, so fold is not a valid
action) and otherwise calls or checks. -/
def flopBadRaiseCallback (s : HandState) : BetAction :=
  if s.phase = HandPhase.flop then BetAction.raise_to 1
  else if s.valid_actions.contains ActionType.call then BetAction.callAction
  else BetAction.checkAction

/-- Scripted decision callback that proposes an illegal below-minimum raise
preflop while facing the big blind (where fold is a valid action) and
otherwise calls or checks. -/
def preflopBadRaiseCallback (s : HandState) : BetAction :=
  if s.phase = HandPhase.preflop && s.valid_actions.contains ActionType.call then
    BetAction.raise_to 1
  else if s.valid_actions.contains ActionType.call then BetAction.callAction
  else BetAction.checkAction

/-- A heads-up controller: stacks 100/100, button at seat 0, blinds 1/2, no
ante.  The deck is the unshuffled standard order; the chip flow of the
scenarios below is independent of the card order. -/
def headsUpController? : Option HandController :=
  HandController.init "h1" [{ wallet := "p1", stack := 100, seat_position := 0 },
                            { wallet := "p2", stack := 100, seat_position := 1 }]
    0 1 2 0 { cards := CARDS, dealt := 0 }

/-- A three-handed controller used as a concrete blind-posting witness:
button at seat 0, blinds 25/50 with ante 10, where the small blind's stack
(25) and the big blind's stack (55) are both fully consumed by posting. -/
def anteController : HandController :=
  { hand_id := "w", button_position := 0, small_blind := 25, big_blind := 50, ante := 10,
    deck := { cards := CARDS, dealt := 0 },
    players := [{ wallet := "a", stack := 1000 }, { wallet := "b", stack := 25 },
                { wallet := "c", stack := 55 }],
    seat_positions := [("a", 0), ("b", 1), ("c", 2)],
    hole_cards := [], community_cards := [], actions := [],
    phase := .waiting, pot := 0, current_bet := 0 }

/-! ## Theorems -/

/-! ### List access helpers -/

theorem getD_set_self_of_lt {α : Type} [Inhabited α] (l : List α) (i : Nat) (a : α)
    (h : i < l.length) : (l.set i a).getD i default = a := by
  simp [List.getD_eq_getElem?_getD, List.getElem?_set_self h]

theorem getD_set_ne {α : Type} [Inhabited α] (l : List α) (i j : Nat) (a : α)
    (h : i ≠ j) : (l.set i a).getD j default = l.getD j default := by
  simp [List.getD_eq_getElem?_getD, List.getElem?_set_ne h]

theorem getD_map_of_lt {α β : Type} [Inhabited α] [Inhabited β] (f : α → β) (l : List α)
    (i : Nat) (h : i < l.length) : (l.map f).getD i default = f (l.getD i default) := by
  simp [List.getD_eq_getElem?_getD, List.getElem?_map, List.getElem?_eq_getElem h]

/-! ### C3 -/

/-- C3: `SidePotCalculator.calculate` on contributions A:1000 (all-in),
B:2000 (all-in), C:5000 (active, not all-in) returns exactly three pots in
order: 3000 for A, B, C; 2000 for B, C; 3000 for C. -/
theorem calculate_three_tier_example :
    SidePotCalculator.calculate
      [{ wallet := "A", stack := 0, current_bet := 1000, is_active := true,
         is_all_in := true, has_acted := false },
       { wallet := "B", stack := 0, current_bet := 2000, is_active := true,
         is_all_in := true, has_acted := false },
       { wallet := "C", stack := 3000, current_bet := 5000, is_active := true,
         is_all_in := false, has_acted := false }] =
      [{ amount := 3000, eligible_players := ["A", "B", "C"] },
       { amount := 2000, eligible_players := ["B", "C"] },
       { amount := 3000, eligible_players := ["C"] }] := by
  decide

/-! ### C9 -/

theorem deal_in_range_ok (d : Deck) (n : Int) (h1 : 0 ≤ n) (h2 : n ≤ d.remaining) :
    ∃ d', d.deal n = .ok ((d.cards.drop d.dealt).take n.toNat, d') ∧
      d'.remaining = d.remaining - n ∧ d'.cards = d.cards := by
  refine ⟨{ d with dealt := d.dealt + n.toNat }, ?_, ?_, rfl⟩
  · simp [Deck.deal, not_lt.mpr h1, not_lt.mpr h2]
  · simp only [Deck.remaining]
    have hn : (n.toNat : Int) = n := Int.toNat_of_nonneg h1
    push_cast
    omega

/-- C9: `Deck.deal n` fails with `InvalidCount` for `n < 0`, fails with
`InsufficientCards` for `n` exceeding the undealt remainder, and otherwise
returns exactly the next `n` undealt cards, decreases `remaining` by `n`,
and leaves the card sequence unchanged. -/
theorem deck_deal_spec (d : Deck) (n : Int) :
    (n < 0 → d.deal n = .error .invalidCount) ∧
    (0 ≤ n → d.remaining < n → d.deal n = .error .insufficientCards) ∧
    (0 ≤ n → n ≤ d.remaining →
      ∃ d', d.deal n = .ok ((d.cards.drop d.dealt).take n.toNat, d') ∧
        d'.remaining = d.remaining - n ∧ d'.cards = d.cards) := by
  refine ⟨fun h => ?_, fun h1 h2 => ?_, fun h1 h2 => deal_in_range_ok d n h1 h2⟩
  · simp [Deck.deal, h]
  · simp [Deck.deal, not_lt.mpr h1, h2]

/-- Witness for C9 at a concrete deck: dealing 5 from a fresh standard deck
succeeds with the first five cards and 47 remaining. -/
theorem deck_deal_spec_witness :
    (0 : Int) ≤ 5 ∧ (5 : Int) ≤ (Deck.remaining { cards := CARDS, dealt := 0 }) ∧
    ∃ d', Deck.deal { cards := CARDS, dealt := 0 } 5 =
        .ok ((CARDS.drop 0).take (5 : Int).toNat, d') ∧
      d'.remaining = Deck.remaining { cards := CARDS, dealt := 0 } - 5 ∧ d'.cards = CARDS := by
  refine ⟨by decide, by decide, ?_⟩
  exact (deck_deal_spec { cards := CARDS, dealt := 0 } 5).2.2 (by decide) (by decide)

/-! ### C10 -/

/-- C10: `BettingRound.apply_action` is atomic on failure: every
`InvalidActionError` (invalid action type, raise without an amount,
below-minimum non-all-in raise) is raised before any mutation, so the
betting state carried by the error is exactly the input state. -/
theorem apply_raise_atomic (s : BettingState) (amt? : Option Int) (r : InvalidActionReason)
    (s' : BettingState) (h : applyRaise s amt? = .error (r, s')) : s' = s := by
  unfold applyRaise at h
  match amt? with
  | none => simp only [Except.error.injEq, Prod.mk.injEq] at h; exact h.2.symm
  | some v =>
    dsimp only at h
    split at h
    · simp at h
    · split at h
      · simp only [Except.error.injEq, Prod.mk.injEq] at h
        exact h.2.symm
      · simp at h

/-- C10: `BettingRound.apply_action` is atomic on failure: every
`InvalidActionError` (invalid action type, raise without an amount,
below-minimum non-all-in raise) is raised before any mutation, so the
betting state carried by the error is exactly the input state. -/
theorem apply_action_atomic (s : BettingState) (a : BetAction) (r : InvalidActionReason)
    (s' : BettingState) (h : applyAction s a = .error (r, s')) : s' = s := by
  unfold applyAction at h
  by_cases hv : a.action_type ∉ getValidActions s
  · rw [if_pos hv] at h
    simp only [Except.error.injEq, Prod.mk.injEq] at h
    exact h.2.symm
  · rw [if_neg hv] at h
    obtain ⟨t, amt⟩ := a
    cases t <;> dsimp only at h
    · simp at h
    · simp at h
    · simp at h
    · cases hra : applyRaise s amt with
      | error e =>
        rw [hra] at h
        dsimp only at h
        simp only [Except.error.injEq] at h
        subst h
        exact apply_raise_atomic s amt r s' hra
      | ok s1 =>
        rw [hra] at h
        simp at h

/-- Witness for C10: a concrete rejected action (check while facing a bet)
carries back the unchanged state. -/
theorem apply_action_atomic_witness :
    applyAction
      { pot := 10, current_bet := 10, min_raise := 2, last_raise_amount := 2,
        players := [{ wallet := "x", stack := 50, current_bet := 0, is_active := true,
                      is_all_in := false, has_acted := false }],
        action_on := 0, num_active := 2, num_to_act := 1 }
      BetAction.checkAction =
      .error (.actionNotValid,
        { pot := 10, current_bet := 10, min_raise := 2, last_raise_amount := 2,
          players := [{ wallet := "x", stack := 50, current_bet := 0, is_active := true,
                        is_all_in := false, has_acted := false }],
          action_on := 0, num_active := 2, num_to_act := 1 }) ∧
    ({ pot := 10, current_bet := 10, min_raise := 2, last_raise_amount := 2,
       players := [{ wallet := "x", stack := 50, current_bet := 0, is_active := true,
                     is_all_in := false, has_acted := false }],
       action_on := 0, num_active := 2, num_to_act := 1 } : BettingState) =
      { pot := 10, current_bet := 10, min_raise := 2, last_raise_amount := 2,
        players := [{ wallet := "x", stack := 50, current_bet := 0, is_active := true,
                      is_all_in := false, has_acted := false }],
        action_on := 0, num_active := 2, num_to_act := 1 } :=
  ⟨rfl, apply_action_atomic _ BetAction.checkAction InvalidActionReason.actionNotValid _ rfl⟩

/-! ### C8 -/

theorem listSwap_length (l : List Card) (i j : Nat) : (listSwap l i j).length = l.length := by
  simp [listSwap]

theorem fisherYates_aux_length (f : Nat → Nat → Nat → Nat) (s : Nat) (idxs : List Nat)
    (cards : List Card) (k : Nat) :
    ((idxs.foldl (fun (st : List Card × Nat) i =>
      (listSwap st.1 i (f s st.2 i), st.2 + 1)) (cards, k)).1).length = cards.length := by
  induction idxs generalizing cards k with
  | nil => rfl
  | cons i rest ih =>
    rw [List.foldl_cons]
    rw [ih (listSwap cards i (f s k i)) (k + 1)]
    exact listSwap_length cards i (f s k i)

theorem fisherYates_length (f : Nat → Nat → Nat → Nat) (s : Nat) :
    (fisherYates f s).length = 52 := by
  unfold fisherYates
  rw [fisherYates_aux_length]
  rfl

/-- C8: two `Deck` instances constructed from the same seed bytes (with the
same deterministic PRNG model) produce the identical post-shuffle order:
dealing all 52 cards from each yields the same sequence, namely the full
52-card shuffled sequence. -/
theorem deck_same_seed_same_order (randint : Nat → Nat → Nat → Nat) (seed : List Nat) :
    Deck.deal (Deck.new randint seed) 52 = Deck.deal (Deck.new randint seed) 52 ∧
    ∃ d', Deck.deal (Deck.new randint seed) 52 = .ok ((Deck.new randint seed).cards, d') ∧
      (Deck.new randint seed).cards.length = 52 := by
  refine ⟨rfl, ?_⟩
  have hcards : (Deck.new randint seed).cards = fisherYates randint (intFromBytesBE seed) := by
    unfold Deck.new
    with_reducible rfl
  have hdealt : (Deck.new randint seed).dealt = 0 := by
    unfold Deck.new
    with_reducible rfl
  have hlen : (Deck.new randint seed).cards.length = 52 := by
    rw [hcards]
    exact fisherYates_length randint (intFromBytesBE seed)
  have hrem : (Deck.new randint seed).remaining = 52 := by
    unfold Deck.remaining
    rw [hlen, hdealt]
    norm_num
  obtain ⟨d', hdeal, _, _⟩ :=
    deal_in_range_ok (Deck.new randint seed) 52 (by norm_num) (le_of_eq hrem.symm)
  refine ⟨d', ?_, hlen⟩
  rw [hdeal, hdealt, List.drop_zero]
  have h52 : (52 : Int).toNat = 52 := rfl
  rw [h52, List.take_of_length_le (le_of_eq hlen)]

/-! ### C6 -/

theorem advanceAction_players (s : BettingState) : (advanceAction s).players = s.players := by
  unfold advanceAction
  split <;> rfl

theorem finishRaise_action_on (s : BettingState) (p : PlayerInHand) (total raise_to : Int) :
    (finishRaise s p total raise_to).action_on = s.action_on := by
  simp only [finishRaise, resetActionNeeded]
  split <;> rfl

theorem finishRaise_length (s : BettingState) (p : PlayerInHand) (total raise_to : Int) :
    (finishRaise s p total raise_to).players.length = s.players.length := by
  simp only [finishRaise, resetActionNeeded]
  split <;> simp

theorem finishRaise_getD (s : BettingState) (p : PlayerInHand) (total raise_to : Int)
    (h : s.action_on < s.players.length) (hall : p.is_all_in = true) :
    (finishRaise s p total raise_to).players.getD s.action_on default =
      { p with stack := p.stack - total, current_bet := raise_to, has_acted := true } := by
  simp only [finishRaise, resetActionNeeded, actingPlayer]
  split <;>
  · dsimp only
    rw [getD_set_self_of_lt _ _ _ (by simpa using h)]
    rw [getD_map_of_lt _ _ _ (by simpa using h)]
    rw [getD_set_self_of_lt _ _ _ h]
    simp [hall]

/-- C6: for an acting player who is active and not all-in,
`get_valid_actions` is exactly `[fold, call, raise]` when the table bet
exceeds the player's bet and exactly `[check, raise]` when they are equal
(check is never offered when money is owed); and `apply_action` accepts every
raise whose required commitment is at least the player's whole stack, marking
the player all-in with a bet of exactly `stack + prior current_bet`, even
below the nominal minimum raise. -/
theorem betting_legality (s : BettingState) (hlen : s.action_on < s.players.length)
    (hact : (actingPlayer s).is_active = true) (hnai : (actingPlayer s).is_all_in = false) :
    ((actingPlayer s).current_bet < s.current_bet →
      getValidActions s = [.fold, .call, .raise]) ∧
    (s.current_bet = (actingPlayer s).current_bet →
      getValidActions s = [.check, .raise]) ∧
    (∀ amt : Int, (actingPlayer s).stack ≤ amt - (actingPlayer s).current_bet →
      ∃ s₁, applyAction s (BetAction.raise_to amt) = .ok s₁ ∧
        (s₁.players.getD s.action_on default).is_all_in = true ∧
        (s₁.players.getD s.action_on default).current_bet
          = (actingPlayer s).current_bet + (actingPlayer s).stack) := by
  have hraise : ActionType.raise ∈ getValidActions s := by
    simp only [getValidActions, hact, hnai, Bool.not_true, Bool.or_false]
    rw [if_neg (by simp)]
    split <;> simp
  refine ⟨?_, ?_, ?_⟩
  · intro hlt
    simp only [getValidActions, hact, hnai]
    rw [if_neg (by simp), if_pos (by omega)]
  · intro heq
    simp only [getValidActions, hact, hnai]
    rw [if_neg (by simp), if_neg (by omega)]
  · intro amt hamt
    have hne : ¬((BetAction.raise_to amt).action_type ∉ getValidActions s) := by
      simpa [BetAction.raise_to] using hraise
    rw [applyAction, if_neg hne]
    simp only [BetAction.raise_to, applyRaise]
    rw [if_pos (show amt - (actingPlayer s).current_bet ≥ (actingPlayer s).stack from hamt)]
    dsimp only
    refine ⟨_, rfl, ?_⟩
    have hall : ({ actingPlayer s with is_all_in := true } : PlayerInHand).is_all_in = true := rfl
    have hXa := finishRaise_action_on s { actingPlayer s with is_all_in := true }
      (actingPlayer s).stack ((actingPlayer s).current_bet + (actingPlayer s).stack)
    have hXlen := finishRaise_length s { actingPlayer s with is_all_in := true }
      (actingPlayer s).stack ((actingPlayer s).current_bet + (actingPlayer s).stack)
    have hXg := finishRaise_getD s { actingPlayer s with is_all_in := true }
      (actingPlayer s).stack ((actingPlayer s).current_bet + (actingPlayer s).stack) hlen hall
    set X := finishRaise s { actingPlayer s with is_all_in := true }
      (actingPlayer s).stack ((actingPlayer s).current_bet + (actingPlayer s).stack) with hXdef
    have hfin : (if !isRoundComplete (markActed X) then advanceAction (markActed X)
        else markActed X).players = (markActed X).players := by
      split
      · exact advanceAction_players _
      · rfl
    rw [hfin]
    have hM : (markActed X).players.getD s.action_on default =
        { actingPlayer s with
          is_all_in := true,
          stack := (actingPlayer s).stack - (actingPlayer s).stack,
          current_bet := (actingPlayer s).current_bet + (actingPlayer s).stack,
          has_acted := true } := by
      simp only [markActed, actingPlayer, hXa]
      rw [getD_set_self_of_lt _ _ _ (by rw [hXlen]; exact hlen)]
      have := hXg
      simp only [actingPlayer] at this ⊢
      rw [this]
    rw [hM]
    exact ⟨rfl, rfl⟩

/-- Witness for C6 at a concrete state: facing a bet of 10 with a bet of 0,
the valid actions are fold, call, raise; and a raise-to-60 with stack 50 is
accepted as an all-in with a final bet of exactly 0 + 50. -/
theorem betting_legality_witness :
    (getValidActions
      { pot := 10, current_bet := 10, min_raise := 2, last_raise_amount := 2,
        players := [{ wallet := "x", stack := 50, current_bet := 0, is_active := true,
                      is_all_in := false, has_acted := false }],
        action_on := 0, num_active := 2, num_to_act := 1 } = [.fold, .call, .raise]) ∧
    (∃ s₁, applyAction
      { pot := 10, current_bet := 10, min_raise := 2, last_raise_amount := 2,
        players := [{ wallet := "x", stack := 50, current_bet := 0, is_active := true,
                      is_all_in := false, has_acted := false }],
        action_on := 0, num_active := 2, num_to_act := 1 } (BetAction.raise_to 60) = .ok s₁ ∧
      (s₁.players.getD 0 default).is_all_in = true ∧
      (s₁.players.getD 0 default).current_bet = 0 + 50) := by
  constructor
  · exact (betting_legality _ (by decide) (by decide) (by decide)).1 (by decide)
  · exact (betting_legality _ (by decide) (by decide) (by decide)).2.2 60 (by decide)

/-! ### C7 -/

theorem sb_bb_idx_facts (hc : HandController) (h2 : 2 ≤ hc.players.length)
    (hb : hc.button_position < hc.players.length) :
    sbPlayerIdx hc < hc.players.length ∧ bbPlayerIdx hc < hc.players.length ∧
    sbPlayerIdx hc ≠ bbPlayerIdx hc := by
  simp only [sbPlayerIdx, bbPlayerIdx]
  by_cases hn : hc.players.length = 2
  · rw [if_pos hn, if_pos hn, hn]
    omega
  · rw [if_neg hn, if_neg hn]
    have h3 : 3 ≤ hc.players.length := by omega
    refine ⟨Nat.mod_lt _ (by omega), Nat.mod_lt _ (by omega), ?_⟩
    intro heq
    have hme : Nat.ModEq hc.players.length (hc.button_position + 1) (hc.button_position + 2) :=
      heq
    have hdvd := (Nat.modEq_iff_dvd' (by omega)).mp hme
    have h1 : hc.button_position + 2 - (hc.button_position + 1) = 1 := by omega
    rw [h1] at hdvd
    have := Nat.le_of_dvd (by omega) hdvd
    omega

/-- C7: `_post_blinds` charges the small-blind player exactly
`min(small_blind, stack)` with no ante component and the big-blind player
exactly `min(big_blind + ante, stack)`; a player whose stack is fully
consumed by the posting is marked all-in. -/
theorem post_blinds_spec (hc : HandController) (h2 : 2 ≤ hc.players.length)
    (hb : hc.button_position < hc.players.length) (hante : 0 < hc.ante) :
    ((postBlinds hc).players.getD (sbPlayerIdx hc) default).current_bet
      = min hc.small_blind (hc.players.getD (sbPlayerIdx hc) default).stack ∧
    ((postBlinds hc).players.getD (sbPlayerIdx hc) default).stack
      = (hc.players.getD (sbPlayerIdx hc) default).stack
        - min hc.small_blind (hc.players.getD (sbPlayerIdx hc) default).stack ∧
    (((postBlinds hc).players.getD (sbPlayerIdx hc) default).stack = 0 →
      ((postBlinds hc).players.getD (sbPlayerIdx hc) default).is_all_in = true) ∧
    ((postBlinds hc).players.getD (bbPlayerIdx hc) default).current_bet
      = min (hc.big_blind + hc.ante) (hc.players.getD (bbPlayerIdx hc) default).stack ∧
    ((postBlinds hc).players.getD (bbPlayerIdx hc) default).stack
      = (hc.players.getD (bbPlayerIdx hc) default).stack
        - min (hc.big_blind + hc.ante) (hc.players.getD (bbPlayerIdx hc) default).stack ∧
    (((postBlinds hc).players.getD (bbPlayerIdx hc) default).stack = 0 →
      ((postBlinds hc).players.getD (bbPlayerIdx hc) default).is_all_in = true) := by
  obtain ⟨hsb, hbb, hne⟩ := sb_bb_idx_facts hc h2 hb
  have e1 : sbPlayerIdx { hc with phase := HandPhase.posting_blinds } = sbPlayerIdx hc := rfl
  have e2 : bbPlayerIdx { hc with phase := HandPhase.posting_blinds } = bbPlayerIdx hc := rfl
  simp only [postBlinds, e1, e2]
  rw [if_pos hante]
  dsimp only
  rw [getD_set_self_of_lt _ _ _ (by simpa using hbb)]
  rw [getD_set_ne _ _ _ _ (Ne.symm hne)]
  rw [getD_set_self_of_lt _ _ _ hsb]
  constructor
  · split <;> rfl
  constructor
  · split <;> rfl
  constructor
  · intro h0
    split at h0
    · next hcond => rw [if_pos hcond]
    · next hcond => exact absurd h0 hcond
  constructor
  · split <;> rfl
  constructor
  · split <;> rfl
  · intro h0
    split at h0
    · next hcond => rw [if_pos hcond]
    · next hcond => exact absurd h0 hcond

/-- Witness for C7 at `anteController`: the hypotheses hold and the posted
amounts are exactly `min(25, 25)` for the SB seat and `min(50 + 10, 55)` for
the BB seat, both seats ending all-in. -/
theorem post_blinds_spec_witness :
    (2 ≤ anteController.players.length ∧
     anteController.button_position < anteController.players.length ∧
     0 < anteController.ante) ∧
    (((postBlinds anteController).players.getD (sbPlayerIdx anteController) default).current_bet
      = min anteController.small_blind
          (anteController.players.getD (sbPlayerIdx anteController) default).stack ∧
    ((postBlinds anteController).players.getD (sbPlayerIdx anteController) default).stack
      = (anteController.players.getD (sbPlayerIdx anteController) default).stack
        - min anteController.small_blind
            (anteController.players.getD (sbPlayerIdx anteController) default).stack ∧
    (((postBlinds anteController).players.getD (sbPlayerIdx anteController) default).stack = 0 →
      ((postBlinds anteController).players.getD (sbPlayerIdx anteController) default).is_all_in
        = true) ∧
    ((postBlinds anteController).players.getD (bbPlayerIdx anteController) default).current_bet
      = min (anteController.big_blind + anteController.ante)
          (anteController.players.getD (bbPlayerIdx anteController) default).stack ∧
    ((postBlinds anteController).players.getD (bbPlayerIdx anteController) default).stack
      = (anteController.players.getD (bbPlayerIdx anteController) default).stack
        - min (anteController.big_blind + anteController.ante)
            (anteController.players.getD (bbPlayerIdx anteController) default).stack ∧
    (((postBlinds anteController).players.getD (bbPlayerIdx anteController) default).stack = 0 →
      ((postBlinds anteController).players.getD (bbPlayerIdx anteController) default).is_all_in
        = true)) :=
  ⟨⟨by decide, by decide, by decide⟩,
   post_blinds_spec anteController (by decide) (by decide) (by decide)⟩

/-! ### C5 -/

theorem tupleLt_irrefl (l : List Int) : tupleLt l l = false := by
  induction l with
  | nil => rfl
  | cons x xs ih => simp [tupleLt, ih]

theorem tupleLt_trans {a b c : List Int} (h1 : tupleLt a b = true) (h2 : tupleLt b c = true) :
    tupleLt a c = true := by
  induction a generalizing b c with
  | nil =>
    cases b with
    | nil => simp [tupleLt] at h1
    | cons y ys =>
      cases c with
      | nil => simp [tupleLt] at h2
      | cons z zs => rfl
  | cons x xs ih =>
    cases b with
    | nil => simp [tupleLt] at h1
    | cons y ys =>
      cases c with
      | nil => simp [tupleLt] at h2
      | cons z zs =>
        simp only [tupleLt, Bool.or_eq_true, Bool.and_eq_true, decide_eq_true_eq,
          beq_iff_eq] at h1 h2 ⊢
        rcases h1 with h1 | ⟨h1e, h1t⟩ <;> rcases h2 with h2 | ⟨h2e, h2t⟩
        · exact Or.inl (lt_trans h1 h2)
        · exact Or.inl (h2e ▸ h1)
        · exact Or.inl (h1e ▸ h2)
        · exact Or.inr ⟨h1e.trans h2e, ih h1t h2t⟩

theorem tupleLt_total {a b : List Int} (h : a ≠ b) :
    tupleLt a b = true ∨ tupleLt b a = true := by
  induction a generalizing b with
  | nil =>
    cases b with
    | nil => exact absurd rfl h
    | cons y ys => exact Or.inl rfl
  | cons x xs ih =>
    cases b with
    | nil => exact Or.inr rfl
    | cons y ys =>
      by_cases hxy : x = y
      · subst hxy
        have hne : xs ≠ ys := fun he => h (he ▸ rfl)
        rcases ih hne with ht | ht
        · exact Or.inl (by simp [tupleLt, ht])
        · exact Or.inr (by simp [tupleLt, ht])
      · rcases lt_or_gt_of_ne hxy with hlt | hgt
        · exact Or.inl (by simp [tupleLt, hlt])
        · exact Or.inr (by simp [tupleLt, hgt])

theorem handRank_val_inj (r s : HandRank) (h : r.val = s.val) : r = s := by
  cases r <;> cases s <;> first | rfl | (exfalso; simp [HandRank.val] at h)

theorem eLt_eq_key (a b : EvaluatedHand) : eLt a b = tupleLt (eKey a) (eKey b) := by
  simp only [eLt, eKey, tupleLt]
  by_cases h : a.rank = b.rank
  · rw [if_neg (not_not_intro h), h]
    simp [tupleLt_irrefl]
  · rw [if_pos h]
    have hv : ((a.rank.val : Int) = (b.rank.val : Int)) ↔ False := by
      constructor
      · intro he
        exact h (handRank_val_inj _ _ (by exact_mod_cast he))
      · exact False.elim
    simp [hv]

theorem eEq_true_iff (a b : EvaluatedHand) : eEq a b = true ↔ eKey a = eKey b := by
  simp only [eEq, eKey, Bool.and_eq_true, beq_iff_eq, List.cons.injEq]
  constructor
  · rintro ⟨h1, h2⟩
    exact ⟨by rw [h1], h2⟩
  · rintro ⟨h1, h2⟩
    exact ⟨handRank_val_inj _ _ (by exact_mod_cast h1), h2⟩

theorem eEq_false_of_key_ne {a b : EvaluatedHand} (h : eKey a ≠ eKey b) : eEq a b = false := by
  by_cases he : eEq a b = true
  · exact absurd ((eEq_true_iff a b).mp he) h
  · simpa using he

/-- C5: the comparison on `EvaluatedHand` is a total order: for any two
hands exactly one of `<`, `==`, `>` holds and `<` is transitive; the wheel
straight produced by `HandEvaluator.evaluate` (rank value 3 with tie-break
tuple `(3, 2, 1, 0, -1)`, a below-zero sentinel) compares strictly below the
6-high straight; and any royal flush compares strictly above any straight
flush. -/
theorem evaluated_hand_order :
    (∀ a b : EvaluatedHand,
      (eLt a b = true ∧ eEq a b = false ∧ eGt a b = false) ∨
      (eLt a b = false ∧ eEq a b = true ∧ eGt a b = false) ∨
      (eLt a b = false ∧ eEq a b = false ∧ eGt a b = true)) ∧
    (∀ a b c : EvaluatedHand, eLt a b = true → eLt b c = true → eLt a c = true) ∧
    (∃ w s : EvaluatedHand,
      HandEvaluator.evaluate [⟨'A', 's'⟩, ⟨'2', 'd'⟩] [⟨'3', 'c'⟩, ⟨'4', 'h'⟩, ⟨'5', 's'⟩]
        = some w ∧
      HandEvaluator.evaluate [⟨'2', 'd'⟩, ⟨'3', 'c'⟩] [⟨'4', 'h'⟩, ⟨'5', 's'⟩, ⟨'6', 'c'⟩]
        = some s ∧
      w.rank = .straight ∧ w.rank_values = [3, 2, 1, 0, -1] ∧ s.rank = .straight ∧
      eLt w s = true) ∧
    (∀ a b : EvaluatedHand, a.rank = .royalFlush → b.rank = .straightFlush →
      eLt b a = true ∧ eGt a b = true) := by
  refine ⟨?_, ?_, ?_, ?_⟩
  · intro a b
    by_cases hk : eKey a = eKey b
    · refine Or.inr (Or.inl ⟨?_, ?_, ?_⟩)
      · rw [eLt_eq_key, hk]
        exact tupleLt_irrefl _
      · exact (eEq_true_iff a b).mpr hk
      · simp only [eGt, eLe]
        rw [eLt_eq_key, hk, tupleLt_irrefl, (eEq_true_iff a b).mpr hk]
        rfl
    · rcases tupleLt_total hk with ht | ht
      · refine Or.inl ⟨?_, ?_, ?_⟩
        · rw [eLt_eq_key]
          exact ht
        · exact eEq_false_of_key_ne hk
        · simp only [eGt, eLe]
          rw [eLt_eq_key, eEq_false_of_key_ne hk]
          simp [ht]
      · have hnlt : tupleLt (eKey a) (eKey b) = false := by
          by_contra hc
          have hc' : tupleLt (eKey a) (eKey b) = true := by
            revert hc
            cases tupleLt (eKey a) (eKey b) <;> simp
          have := tupleLt_trans hc' ht
          rw [tupleLt_irrefl] at this
          exact Bool.false_ne_true this
        refine Or.inr (Or.inr ⟨?_, ?_, ?_⟩)
        · rw [eLt_eq_key]
          exact hnlt
        · exact eEq_false_of_key_ne hk
        · simp only [eGt, eLe]
          rw [eLt_eq_key, eEq_false_of_key_ne hk]
          simp [hnlt]
  · intro a b c h1 h2
    rw [eLt_eq_key] at h1 h2 ⊢
    exact tupleLt_trans h1 h2
  · refine ⟨_, _, rfl, rfl, ?_, ?_, ?_, ?_⟩ <;> decide
  · intro a b ha hb
    constructor
    · simp [eLt, ha, hb, HandRank.val]
    · simp [eGt, eLe, eLt, eEq, ha, hb, HandRank.val]

/-- Witness for C5: the order facts applied at two concrete evaluated hands
(a pair of Twos versus a pair of Threes). -/
theorem evaluated_hand_order_witness :
    eLt { rank := .pair, rank_values := [0, 5, 4, 3], cards_used := [], description := "" }
        { rank := .pair, rank_values := [1, 5, 4, 3], cards_used := [], description := "" }
        = true ∧
    eGt { rank := .royalFlush, rank_values := [12, 11, 10, 9, 8], cards_used := [],
          description := "" }
        { rank := .straightFlush, rank_values := [11, 10, 9, 8, 7], cards_used := [],
          description := "" } = true := by
  constructor
  · have h := (evaluated_hand_order.1
      { rank := .pair, rank_values := [0, 5, 4, 3], cards_used := [], description := "" }
      { rank := .pair, rank_values := [1, 5, 4, 3], cards_used := [], description := "" })
    rcases h with ⟨h1, _, _⟩ | ⟨h1, _, _⟩ | ⟨h1, _, _⟩
    · exact h1
    · exact absurd h1 (by decide)
    · exact absurd h1 (by decide)
  · exact (evaluated_hand_order.2.2.2
      { rank := .royalFlush, rank_values := [12, 11, 10, 9, 8], cards_used := [],
        description := "" }
      { rank := .straightFlush, rank_values := [11, 10, 9, 8, 7], cards_used := [],
        description := "" } rfl rfl).2

/-! ### C4 -/

theorem winTotal_nil : winTotal [] = 0 := rfl

theorem winTotal_cons (w : String) (a : Int) (rest : List (String × Int)) :
    winTotal ((w, a) :: rest) = a + winTotal rest := by
  simp [winTotal]

theorem addWin_total (acc : List (String × Int)) (w : String) (a : Int) :
    winTotal (addWin acc w a) = winTotal acc + a := by
  induction acc with
  | nil => simp [addWin, winTotal]
  | cons p rest ih =>
    obtain ⟨x, b⟩ := p
    by_cases hx : x = w
    · simp [addWin, hx, winTotal_cons]
      ring
    · simp only [addWin, if_neg hx, winTotal_cons, ih]
      ring

theorem foldl_addWin_total (ps acc : List (String × Int)) :
    winTotal (ps.foldl (fun a2 p => addWin a2 p.1 p.2) acc) = winTotal acc + winTotal ps := by
  induction ps generalizing acc with
  | nil => simp [winTotal]
  | cons p rest ih =>
    obtain ⟨w, a⟩ := p
    rw [List.foldl_cons, ih, addWin_total, winTotal_cons]
    ring

theorem payoutsAux_total (share rem : Int) (ws : List String) (i : Nat) :
    winTotal (payoutsAux share rem i ws) =
      share * (ws.length : Int) + max 0 (min (rem - i) (ws.length : Int)) := by
  induction ws generalizing i with
  | nil => simp [payoutsAux, winTotal]
  | cons w rest ih =>
    rw [payoutsAux, winTotal_cons, ih (i + 1)]
    simp only [List.length_cons]
    push_cast
    have hmul : share * ((rest.length : Int) + 1) = share * (rest.length : Int) + share := by
      ring
    rw [hmul]
    by_cases hir : (i : Int) < rem
    · rw [if_pos hir]
      omega
    · rw [if_neg hir]
      omega

theorem payoutsAux_fst (share rem : Int) (ws : List String) (i : Nat) :
    (payoutsAux share rem i ws).map Prod.fst = ws := by
  induction ws generalizing i with
  | nil => rfl
  | cons w rest ih => simp [payoutsAux, ih]

theorem potPayouts_total (rk : List (String × Int)) (pot : SidePot)
    (h : potWinners rk pot ≠ []) : winTotal (potPayouts rk pot) = pot.amount := by
  rw [potPayouts]
  rw [if_neg (by simpa using h)]
  rw [payoutsAux_total]
  have hlen : 0 < ((potWinners rk pot).length : Int) := by
    cases hw : potWinners rk pot with
    | nil => exact absurd hw h
    | cons x xs => simp [hw]
  have hmod1 : 0 ≤ pot.amount % ((potWinners rk pot).length : Int) :=
    Int.emod_nonneg _ (by omega)
  have hmod2 : pot.amount % ((potWinners rk pot).length : Int)
      < ((potWinners rk pot).length : Int) := Int.emod_lt_of_pos _ hlen
  have heuclid := Int.ediv_add_emod pot.amount ((potWinners rk pot).length : Int)
  have hcomm : pot.amount / ((potWinners rk pot).length : Int)
        * ((potWinners rk pot).length : Int)
      = ((potWinners rk pot).length : Int)
        * (pot.amount / ((potWinners rk pot).length : Int)) := mul_comm _ _
  rw [hcomm]
  simp only [Nat.cast_zero, sub_zero]
  omega

theorem distribute_total (pots : List SidePot) (rk : List (String × Int))
    (h : ∀ pot ∈ pots, potWinners rk pot ≠ []) :
    winTotal (SidePotCalculator.distribute pots rk) = potsTotal pots := by
  rw [SidePotCalculator.distribute]
  suffices haux : ∀ acc : List (String × Int),
      winTotal (pots.foldl
        (fun acc pot => (potPayouts rk pot).foldl (fun a2 p => addWin a2 p.1 p.2) acc) acc)
        = winTotal acc + potsTotal pots by
    simpa [winTotal] using haux []
  induction pots with
  | nil => intro acc; simp [potsTotal, winTotal]
  | cons pot rest ih =>
    intro acc
    rw [List.foldl_cons]
    rw [ih (fun q hq => h q (List.mem_cons_of_mem _ hq))]
    rw [foldl_addWin_total]
    rw [potPayouts_total rk pot (h pot (List.mem_cons_self _ _))]
    simp [potsTotal]
    ring

theorem mem_foldl_uniq (l : List String) (acc : List String) (w : String) :
    w ∈ l.foldl (fun acc w => if w ∈ acc then acc else acc ++ [w]) acc ↔
      w ∈ acc ∨ w ∈ l := by
  induction l generalizing acc with
  | nil => simp
  | cons x xs ih =>
    rw [List.foldl_cons, ih]
    by_cases hx : x ∈ acc
    · rw [if_pos hx]
      constructor
      · rintro (h | h)
        · exact Or.inl h
        · exact Or.inr (List.mem_cons_of_mem _ h)
      · rintro (h | h)
        · exact Or.inl h
        · rcases List.mem_cons.mp h with rfl | h
          · exact Or.inl hx
          · exact Or.inr h
    · rw [if_neg hx]
      simp only [List.mem_append, List.mem_singleton, List.mem_cons]
      tauto

theorem mem_uniqFirst (l : List String) (w : String) : w ∈ uniqFirst l ↔ w ∈ l := by
  rw [uniqFirst, mem_foldl_uniq]
  simp

theorem minList?_le (l : List Int) (m x : Int) (hm : minList? l = some m) (hx : x ∈ l) :
    m ≤ x := by
  cases l with
  | nil => cases hx
  | cons y ys =>
    simp only [minList?, Option.some.injEq] at hm
    subst hm
    have key : ∀ (zs : List Int) (a : Int), (zs.foldl min a ≤ a) ∧
        (∀ z ∈ zs, zs.foldl min a ≤ z) := by
      intro zs
      induction zs with
      | nil => intro a; exact ⟨le_refl a, by simp⟩
      | cons z zs ih =>
        intro a
        rw [List.foldl_cons]
        refine ⟨le_trans (ih (min a z)).1 (min_le_left a z), ?_⟩
        intro z' hz'
        rcases List.mem_cons.mp hz' with rfl | hz'
        · exact le_trans (ih (min a z')).1 (min_le_right a z')
        · exact (ih (min a z)).2 z' hz'
    rcases List.mem_cons.mp hx with rfl | hx
    · exact (key ys x).1
    · exact (key ys y).2 x hx

theorem potWinners_spec (rk : List (String × Int)) (pot : SidePot) (w : String)
    (h : w ∈ potWinners rk pot) :
    ∃ r : Int, List.lookup w rk = some r ∧ w ∈ pot.eligible_players ∧
      ∀ w' r', w' ∈ pot.eligible_players → List.lookup w' rk = some r' → r ≤ r' := by
  rw [potWinners] at h
  rcases hmin : minList? ((uniqFirst (pot.eligible_players.filter
      (fun w => (List.lookup w rk).isSome))).filterMap (fun w => List.lookup w rk)) with _ | best
  · rw [hmin] at h
    cases h
  · rw [hmin] at h
    simp only [List.mem_filter, beq_iff_eq] at h
    obtain ⟨helig, hrank⟩ := h
    refine ⟨best, hrank, ?_, ?_⟩
    · have := (mem_uniqFirst _ w).mp helig
      exact (List.mem_filter.mp this).1
    · intro w' r' hw' hr'
      have hw'elig : w' ∈ uniqFirst (pot.eligible_players.filter
          (fun w => (List.lookup w rk).isSome)) := by
        rw [mem_uniqFirst]
        exact List.mem_filter.mpr ⟨hw', by simp [hr']⟩
      have hr'mem : r' ∈ (uniqFirst (pot.eligible_players.filter
          (fun w => (List.lookup w rk).isSome))).filterMap (fun w => List.lookup w rk) :=
        List.mem_filterMap.mpr ⟨w', hw'elig, hr'⟩
      exact minList?_le _ _ _ hmin hr'mem

theorem addWin_keys (acc : List (String × Int)) (w' : String) (a : Int) (w : String)
    (h : w ∈ (addWin acc w' a).map Prod.fst) : w ∈ acc.map Prod.fst ∨ w = w' := by
  induction acc with
  | nil => simpa [addWin] using h
  | cons p rest ih =>
    obtain ⟨x, b⟩ := p
    by_cases hx : x = w'
    · rw [addWin, if_pos hx] at h
      simp only [List.map_cons, List.mem_cons] at h ⊢
      tauto
    · rw [addWin, if_neg hx] at h
      simp only [List.map_cons, List.mem_cons] at h ⊢
      rcases h with h | h
      · tauto
      · rcases ih h with h' | h' <;> tauto

theorem foldl_addWin_keys (ps acc : List (String × Int)) (w : String)
    (h : w ∈ (ps.foldl (fun a2 p => addWin a2 p.1 p.2) acc).map Prod.fst) :
    w ∈ acc.map Prod.fst ∨ w ∈ ps.map Prod.fst := by
  induction ps generalizing acc with
  | nil => exact Or.inl h
  | cons p rest ih =>
    rw [List.foldl_cons] at h
    rcases ih (addWin acc p.1 p.2) h with h' | h'
    · rcases addWin_keys acc p.1 p.2 w h' with h'' | h''
      · exact Or.inl h''
      · exact Or.inr (by simp [h''])
    · exact Or.inr (List.mem_cons_of_mem _ h')

theorem potPayouts_keys (rk : List (String × Int)) (pot : SidePot) (w : String)
    (h : w ∈ (potPayouts rk pot).map Prod.fst) : w ∈ potWinners rk pot := by
  rw [potPayouts] at h
  split at h
  · cases h
  · rwa [payoutsAux_fst] at h

theorem distribute_keys (pots : List SidePot) (rk : List (String × Int)) (w : String)
    (h : w ∈ (SidePotCalculator.distribute pots rk).map Prod.fst) :
    ∃ pot, pot ∈ pots ∧ w ∈ potWinners rk pot := by
  rw [SidePotCalculator.distribute] at h
  suffices haux : ∀ acc : List (String × Int),
      w ∈ (pots.foldl
        (fun acc pot => (potPayouts rk pot).foldl (fun a2 p => addWin a2 p.1 p.2) acc)
        acc).map Prod.fst →
      w ∈ acc.map Prod.fst ∨ ∃ pot, pot ∈ pots ∧ w ∈ potWinners rk pot by
    rcases haux [] h with h' | h'
    · cases h'
    · exact h'
  clear h
  induction pots with
  | nil => intro acc h; exact Or.inl h
  | cons pot rest ih =>
    intro acc h
    rw [List.foldl_cons] at h
    rcases ih _ h with h' | h'
    · rcases foldl_addWin_keys _ _ _ h' with h'' | h''
      · exact Or.inl h''
      · exact Or.inr ⟨pot, List.mem_cons_self _ _, potPayouts_keys rk pot w h''⟩
    · obtain ⟨q, hq, hw⟩ := h'
      exact Or.inr ⟨q, List.mem_cons_of_mem _ hq, hw⟩

theorem uniqFirst_aux_nodup (l acc : List String) (hacc : acc.Nodup) :
    (l.foldl (fun acc w => if w ∈ acc then acc else acc ++ [w]) acc).Nodup := by
  induction l generalizing acc with
  | nil => exact hacc
  | cons x xs ih =>
    rw [List.foldl_cons]
    by_cases hx : x ∈ acc
    · rw [if_pos hx]
      exact ih acc hacc
    · rw [if_neg hx]
      refine ih _ ?_
      rw [List.nodup_append]
      refine ⟨hacc, List.nodup_singleton x, ?_⟩
      intro a ha hax
      rw [List.mem_singleton] at hax
      subst hax
      exact hx ha

theorem uniqFirst_nodup (l : List String) : (uniqFirst l).Nodup :=
  uniqFirst_aux_nodup l [] List.nodup_nil

theorem potWinners_nodup (rk : List (String × Int)) (pot : SidePot) :
    (potWinners rk pot).Nodup := by
  rw [potWinners]
  split
  · exact List.nodup_nil
  · exact (uniqFirst_nodup _).filter _

theorem addWin_append (acc : List (String × Int)) (w : String) (a : Int)
    (h : w ∉ acc.map Prod.fst) : addWin acc w a = acc ++ [(w, a)] := by
  induction acc with
  | nil => rfl
  | cons p rest ih =>
    obtain ⟨x, b⟩ := p
    simp only [List.map_cons, List.mem_cons, not_or] at h
    rw [addWin, if_neg (fun he => h.1 he.symm), ih h.2]
    rfl

theorem foldl_addWin_of_disjoint (ps : List (String × Int)) :
    ∀ acc : List (String × Int), (ps.map Prod.fst).Nodup →
    (∀ k ∈ ps.map Prod.fst, k ∉ acc.map Prod.fst) →
    ps.foldl (fun a2 p => addWin a2 p.1 p.2) acc = acc ++ ps := by
  induction ps with
  | nil => intro acc _ _; simp
  | cons p rest ih =>
    intro acc hnd hdisj
    obtain ⟨w, a⟩ := p
    rw [List.foldl_cons]
    have hw : w ∉ acc.map Prod.fst := hdisj w (by simp)
    rw [addWin_append acc w a hw]
    have hnd' : (w :: rest.map Prod.fst).Nodup := by simpa using hnd
    rw [ih (acc ++ [(w, a)]) hnd'.of_cons ?_]
    · simp
    · intro k hk
      simp only [List.map_append, List.mem_append, List.map_cons, List.map_nil,
        List.mem_singleton, not_or, List.mem_cons]
      have hkw : k ≠ w := by
        intro he
        subst he
        exact (List.nodup_cons.mp hnd').1 hk
      exact ⟨hdisj k (List.mem_cons_of_mem _ hk), by simpa using hkw⟩

theorem distribute_single (rk : List (String × Int)) (pot : SidePot) :
    SidePotCalculator.distribute [pot] rk = potPayouts rk pot := by
  rw [SidePotCalculator.distribute]
  simp only [List.foldl_cons, List.foldl_nil]
  rw [foldl_addWin_of_disjoint _ [] ?_ (by simp)]
  · simp
  · rw [potPayouts]
    split
    · simp
    · rw [payoutsAux_fst]
      exact potWinners_nodup rk pot

theorem payoutsAux_lookup (share rem : Int) (ws : List String) (hnd : ws.Nodup) :
    ∀ (i : Nat) (hi : i < ws.length) (j : Nat),
    List.lookup (ws.get ⟨i, hi⟩) (payoutsAux share rem j ws)
      = some (share + if ((j + i : Nat) : Int) < rem then 1 else 0) := by
  induction ws with
  | nil => intro i hi _; cases hi
  | cons w rest ih =>
    intro i hi j
    cases i with
    | zero =>
      simp [payoutsAux, List.lookup]
    | succ i' =>
      have hi' : i' < rest.length := by simpa using hi
      have hget : (w :: rest).get ⟨i' + 1, hi⟩ = rest.get ⟨i', hi'⟩ := rfl
      have hmem : rest.get ⟨i', hi'⟩ ∈ rest := List.get_mem _ _ _
      have hwne : (rest.get ⟨i', hi'⟩ == w) = false := by
        have hw : w ∉ rest := (List.nodup_cons.mp hnd).1
        simp only [beq_eq_false_iff_ne, ne_eq]
        intro he
        exact hw (he ▸ hmem)
      rw [hget, payoutsAux, List.lookup]
      rw [hwne]
      rw [ih (List.nodup_cons.mp hnd).2 i' hi' (j + 1)]
      have : j + 1 + i' = j + (i' + 1) := by omega
      rw [this]

theorem distribute_single_lookup (rk : List (String × Int)) (pot : SidePot)
    (i : Nat) (hi : i < (potWinners rk pot).length) :
    List.lookup ((potWinners rk pot).get ⟨i, hi⟩) (SidePotCalculator.distribute [pot] rk)
      = some (pot.amount / ((potWinners rk pot).length : Int)
          + if (i : Int) < pot.amount % ((potWinners rk pot).length : Int) then 1 else 0) := by
  rw [distribute_single, potPayouts]
  rw [if_neg (by
    intro he
    rw [List.isEmpty_iff] at he
    rw [he] at hi
    cases hi)]
  rw [payoutsAux_lookup _ _ _ (potWinners_nodup rk pot) i hi 0]
  simp

/-- C4 counterexample: `distribute` silently skips a pot none of whose
eligible wallets appear in the rankings map, so with `rankings = {}` the pot
of 100 is not distributed at all: summed winnings 0 differ from the pots'
total 100, refuting the claim's unconditional conservation. -/
theorem distribute_drops_unranked_pot :
    SidePotCalculator.distribute [{ amount := 100, eligible_players := ["A"] }] [] = [] ∧
    winTotal (SidePotCalculator.distribute
      [{ amount := 100, eligible_players := ["A"] }] []) = 0 ∧
    potsTotal [{ amount := 100, eligible_players := ["A"] }] = 100 := ⟨rfl, rfl, rfl⟩

/-- C4 (amended): provided every pot has at least one eligible wallet present
in the rankings map, `distribute` awards pots only to eligible wallets
holding the minimum (best) rank of their pot, pays winner `i` of a pot
exactly `amount // n + (1 if i < amount % n else 0)` (remainder chips to the
earliest winners), and the summed winnings equal the summed pot amounts
exactly. -/
theorem distribute_spec (pots : List SidePot) (rk : List (String × Int))
    (h : ∀ pot ∈ pots, potWinners rk pot ≠ []) :
    winTotal (SidePotCalculator.distribute pots rk) = potsTotal pots ∧
    (∀ w, w ∈ (SidePotCalculator.distribute pots rk).map Prod.fst →
      ∃ pot, pot ∈ pots ∧ ∃ r : Int, List.lookup w rk = some r ∧
        w ∈ pot.eligible_players ∧
        ∀ w' r', w' ∈ pot.eligible_players → List.lookup w' rk = some r' → r ≤ r') ∧
    (∀ pot ∈ pots, ∀ (i : Nat) (hi : i < (potWinners rk pot).length),
      List.lookup ((potWinners rk pot).get ⟨i, hi⟩) (SidePotCalculator.distribute [pot] rk)
        = some (pot.amount / ((potWinners rk pot).length : Int)
            + if (i : Int) < pot.amount % ((potWinners rk pot).length : Int) then 1
              else 0)) := by
  refine ⟨distribute_total pots rk h, ?_, ?_⟩
  · intro w hw
    obtain ⟨pot, hpot, hwin⟩ := distribute_keys pots rk w hw
    obtain ⟨r, hr, helig, hmin⟩ := potWinners_spec rk pot w hwin
    exact ⟨pot, hpot, r, hr, helig, hmin⟩
  · intro pot _ i hi
    exact distribute_single_lookup rk pot i hi

/-- Witness for C4 at concrete data: one pot of 5 with two tied winners; the
hypothesis holds and the distributed total equals the pot total. -/
theorem distribute_spec_witness :
    (∀ pot ∈ [({ amount := 5, eligible_players := ["A", "B"] } : SidePot)],
      potWinners [("A", (0 : Int)), ("B", 0)] pot ≠ []) ∧
    winTotal (SidePotCalculator.distribute
        [{ amount := 5, eligible_players := ["A", "B"] }] [("A", 0), ("B", 0)])
      = potsTotal [{ amount := 5, eligible_players := ["A", "B"] }] :=
  ⟨by decide, (distribute_spec _ _ (by decide)).1⟩

/-! ### C1 -/

set_option maxHeartbeats 2000000 in
/-- C1: evaluating `HandController.run` on a completed heads-up hand
(stacks 100/100, blinds 1/2, callers who check down to the river where one
player bets 10 and is called) shows chips are NOT conserved: the starting
stacks sum to 200 and the hand completes normally, but the final stacks sum
to 196 — `pot_total` is 24 while only the river street's 20 chips are
distributed, because `_determine_winners` computes side pots from the
players' per-street `current_bet`, which was reset before the flop, turn and
river.  The four preflop chips are destroyed.  (The card order is irrelevant
to the chip flow; the unshuffled order is used.) -/
theorem run_loses_chips_on_river_betting :
    (headsUpController?.map (fun hc => stackSum hc.players)) = some 200 ∧
    (headsUpController?.map (fun hc => (HandController.run hc riverBetCallback 64).map
      (fun r => (stackSum r.2.players, r.1.pot_total, winTotal r.1.winners))))
      = some (.ok (196, 24, 20)) := ⟨rfl, rfl⟩

/-! ### C2 -/

set_option maxHeartbeats 2000000 in
/-- C2: when the decision callback proposes an invalid action at a point
where the acting player owes nothing (valid actions `[check, raise]`), the
fallback in `_run_betting_round` unconditionally replays a fold — itself
invalid there — and the second `InvalidActionError` propagates out of
`HandController.run` (first conjunct).  By contrast, when fold is legal
(facing the big blind preflop), the invalid action is recovered as a fold
and the hand completes (second conjunct). -/
theorem run_propagates_invalid_action :
    (headsUpController?.map (fun hc => HandController.run hc flopBadRaiseCallback 64))
      = some (.error .invalidAction) ∧
    (headsUpController?.map (fun hc => (HandController.run hc preflopBadRaiseCallback 64).map
      (fun r => r.1.actions.map (fun a => a.action_type))))
      = some (.ok ["post_sb", "post_bb", "fold"]) := ⟨rfl, rfl⟩
